import Mathlib

/-!
# weston-simple-im: compose-key engine

A shallow embedding of `clients/weston-simple-im.c`: the compose table, the
comparator handed to `bsearch`, the key handler and the activation handlers.

Conventions.
* `uint32_t` values are natural numbers; the theorems assume `< 2 ^ 32` where
  the width matters.
* Pointers are natural numbers, `0` is `NULL`.
* Every call the program makes on a collaborator (protocol requests on the
  context, the keyboard-input helper) is appended to a log of `Call`s.
* C behaviour that is undefined (indexing `keys[4]` and beyond, writing past
  the end of `text[64]`) is a `Fault`.
* A request made with `text[64]` never written sends whatever the stack
  held; the log records such a call without a text.
-/

namespace SimpleIm

/-! ## Constants of xkbcommon-keysyms.h used by the program -/

def XKB_KEY_quotedbl : Nat := 0x0022
def XKB_KEY_apostrophe : Nat := 0x0027
def XKB_KEY_A : Nat := 0x0041
def XKB_KEY_C : Nat := 0x0043
def XKB_KEY_O : Nat := 0x004f
def XKB_KEY_R : Nat := 0x0052
def XKB_KEY_U : Nat := 0x0055
def XKB_KEY_a : Nat := 0x0061
def XKB_KEY_o : Nat := 0x006f
def XKB_KEY_s : Nat := 0x0073
def XKB_KEY_u : Nat := 0x0075
def XKB_KEY_Multi_key : Nat := 0xff20
def XKB_KEY_Shift_L : Nat := 0xffe1
def XKB_KEY_Shift_R : Nat := 0xffe2

/-! ## Data model -/

/-- The `enum compose_state` of the program. -/
inductive compose_state where
  | state_normal
  | state_compose
  deriving DecidableEq, Repr

/-- The `enum wl_keyboard_key_state` of the Wayland protocol. -/
inductive wl_keyboard_key_state where
  | WL_KEYBOARD_KEY_STATE_RELEASED
  | WL_KEYBOARD_KEY_STATE_PRESSED
  deriving DecidableEq, Repr

/-- Undefined behaviour the embedding makes explicit. -/
inductive Fault where
  /-- `keys[i]` of a `struct compose_seq` with `i ≥ 4` -/
  | keys_index
  /-- `text[64]` written outside its bounds; also the answer of `cstring` on a
  buffer that holds no written string -/
  | text_buffer
  /-- `compose_seqs[idx]` with `idx` outside the table -/
  | table_index
  /-- the step budget of the `bsearch` loop ran out (shown never to happen) -/
  | loop_budget
  deriving DecidableEq, Repr

/-- The array `uint32_t keys[4]`. -/
structure keys4 where
  k0 : Nat
  k1 : Nat
  k2 : Nat
  k3 : Nat
  deriving DecidableEq, Repr

/-- The four slots in index order. -/
def keys4.slots (k : keys4) : List Nat := [k.k0, k.k1, k.k2, k.k3]

/-- Read `keys[i]`. -/
def keys4.read (k : keys4) (i : Nat) : Except Fault Nat :=
  match i with
  | 0 => .ok k.k0
  | 1 => .ok k.k1
  | 2 => .ok k.k2
  | 3 => .ok k.k3
  | _ => .error .keys_index

/-- Assign `keys[i] = v`. -/
def keys4.write (k : keys4) (i v : Nat) : Except Fault keys4 :=
  match i with
  | 0 => .ok { k with k0 := v }
  | 1 => .ok { k with k1 := v }
  | 2 => .ok { k with k2 := v }
  | 3 => .ok { k with k3 := v }
  | _ => .error .keys_index

/-- The `struct compose_seq`: four key slots and the text pointer. The text
is the list of bytes of the C string pointed to, without its NUL; the null
pointer of a zeroed struct is the empty list (it is never dereferenced). -/
structure compose_seq where
  keys : keys4
  text : List Nat
  deriving DecidableEq, Repr

/-- The `struct simple_im`. -/
structure simple_im where
  input_method : Nat
  context : Nat
  display : Nat
  keyboard : Nat
  keyboard_input : Nat
  compose_state : compose_state
  compose_seq : compose_seq
  deriving DecidableEq, Repr

/-- The table `compose_seqs`; slots left out of a C initialiser are zero.
The texts are the UTF-8 bytes of Ä Ö Ü ä ö ü Á á © ® ß. -/
def compose_seqs : List compose_seq :=
  [ ⟨⟨XKB_KEY_quotedbl, XKB_KEY_A, 0, 0⟩, [0xC3, 0x84]⟩,
    ⟨⟨XKB_KEY_quotedbl, XKB_KEY_O, 0, 0⟩, [0xC3, 0x96]⟩,
    ⟨⟨XKB_KEY_quotedbl, XKB_KEY_U, 0, 0⟩, [0xC3, 0x9C]⟩,
    ⟨⟨XKB_KEY_quotedbl, XKB_KEY_a, 0, 0⟩, [0xC3, 0xA4]⟩,
    ⟨⟨XKB_KEY_quotedbl, XKB_KEY_o, 0, 0⟩, [0xC3, 0xB6]⟩,
    ⟨⟨XKB_KEY_quotedbl, XKB_KEY_u, 0, 0⟩, [0xC3, 0xBC]⟩,
    ⟨⟨XKB_KEY_apostrophe, XKB_KEY_A, 0, 0⟩, [0xC3, 0x81]⟩,
    ⟨⟨XKB_KEY_apostrophe, XKB_KEY_a, 0, 0⟩, [0xC3, 0xA1]⟩,
    ⟨⟨XKB_KEY_O, XKB_KEY_C, 0, 0⟩, [0xC2, 0xA9]⟩,
    ⟨⟨XKB_KEY_O, XKB_KEY_R, 0, 0⟩, [0xC2, 0xAE]⟩,
    ⟨⟨XKB_KEY_s, XKB_KEY_s, 0, 0⟩, [0xC3, 0x9F]⟩ ]

/-- The array `ignore_keys_on_compose`. -/
def ignore_keys_on_compose : List Nat := [XKB_KEY_Shift_L, XKB_KEY_Shift_R]

/-- A call made by the program on one of its collaborators. A string argument
is the list of bytes of the C string passed (up to its NUL). The two
`unwritten` calls are the pre-edit-string and commit-string requests made
with the buffer `text` while nothing was written to it: the bytes sent and
the index `strlen(text)` are whatever the stack held. -/
inductive Call where
  | input_method_context_destroy (context : Nat)
  | input_method_context_add_listener (context : Nat)
  | input_method_context_grab_keyboard (context : Nat)
  | wl_keyboard_add_listener (keyboard : Nat)
  | keyboard_input_handle_modifiers
      (keyboard_input serial mods_depressed mods_latched mods_locked group : Nat)
  | input_method_context_modifiers
      (context serial mods_depressed mods_latched mods_locked group : Nat)
  | input_method_context_key (context serial time key : Nat) (state : wl_keyboard_key_state)
  | input_method_context_preedit_string (context : Nat) (text : List Nat) (index : Nat)
  | input_method_context_commit_string (context : Nat) (text : List Nat) (index : Nat)
  | input_method_context_preedit_string_unwritten (context : Nat)
  | input_method_context_commit_string_unwritten (context : Nat)
  deriving DecidableEq, Repr

/-! ## The stack buffer `char text[64]` -/

/-- The local `char text[64]` of the key handler as it is on entry: no byte
has been written yet. -/
def text_uninit : List (Option Nat) := List.replicate 64 none

/-- Store the bytes `bs` at `text + off`. -/
def store (text : List (Option Nat)) (off : Nat) (bs : List Nat) :
    Except Fault (List (Option Nat)) :=
  if off + bs.length ≤ text.length then
    .ok (text.take off ++ bs.map some ++ text.drop (off + bs.length))
  else .error .text_buffer

/-- The C string that starts at the head of the buffer: the bytes before the
first NUL. This is what `strlen(text)` measures and what a request taking
`text` sends. When the scan meets a byte that was never written there is no
such string in the model (the answer is an error): `strlen` then returns a
length the model does not know, and the caller goes on. -/
def cstring : List (Option Nat) → Except Fault (List Nat)
  | [] => .error .text_buffer
  | none :: _ => .error .text_buffer
  | some b :: rest =>
    if b = 0 then .ok []
    else match cstring rest with
      | .ok bs => .ok (b :: bs)
      | .error f => .error f

/-- The library primitive `xkb_keysym_to_utf8(keysym, buffer, size)` with
`buffer = text + off`, as documented by xkbcommon: `-1` when `size < 7`, `0`
when the keysym has no text, otherwise the NUL-terminated UTF-8 text is
written and its length including the NUL is returned. `utf8 keysym` is the
text of the keysym, empty when it has none. -/
def xkb_keysym_to_utf8 (utf8 : Nat → List Nat) (keysym : Nat)
    (text : List (Option Nat)) (off size : Nat) :
    Except Fault (Int × List (Option Nat)) :=
  if size < 7 then .ok (-1, text)
  else if utf8 keysym = [] then .ok (0, text)
  else match store text off (utf8 keysym ++ [0]) with
    | .ok t => .ok (((utf8 keysym).length + 1 : Nat), t)
    | .error f => .error f

/-! ## The comparator and the table search -/

/-- The `int` returned for the `uint32_t` expression
`cs1->keys[i] - cs2->keys[i]`: the difference modulo `2 ^ 32`, read as a
two's complement 32-bit value. -/
def key_diff (a b : Nat) : Int :=
  let d : Int := ((a : Int) - (b : Int)) % 4294967296
  if d < 2147483648 then d else d - 4294967296

/-- The body of `compare_compose_keys` from index `i` on, the arguments being
the slots `keys[i], keys[i+1], ...` of both sequences; the empty list is
index 4, outside the array. -/
def compare_slots : List Nat → List Nat → Except Fault Int
  | a :: as, b :: bs =>
    if a ≠ 0 ∧ b ≠ 0 then
      if a ≠ b then .ok (key_diff a b) else compare_slots as bs
    else if a = b ∨ a = 0 then .ok 0
    else .ok (key_diff a b)
  | _, _ => .error .keys_index

/-- The function `compare_compose_keys(c1, c2)`. -/
def compare_compose_keys (cs1 cs2 : compose_seq) : Except Fault Int :=
  compare_slots cs1.keys.slots cs2.keys.slots

/-- The loop of `bsearch` as in glibc (`stdlib/bsearch.c`), with bounds `l`
and `u` and a step budget. -/
def bsearch_loop (key : compose_seq) (base : List compose_seq) :
    Nat → Nat → Nat → Except Fault (Option compose_seq)
  | 0, l, u => if l < u then .error .loop_budget else .ok none
  | n + 1, l, u =>
    if l < u then
      match base[(l + u) / 2]? with
      | none => .error .table_index
      | some p =>
        match compare_compose_keys key p with
        | .error f => .error f
        | .ok c =>
          if c < 0 then bsearch_loop key base n l ((l + u) / 2)
          else if c > 0 then bsearch_loop key base n ((l + u) / 2 + 1) u
          else .ok (some p)
    else .ok none

/-- The call `bsearch(key, base, nmemb, size, compare_compose_keys)`; `none`
is the null pointer. -/
def bsearch (key : compose_seq) (base : List compose_seq) :
    Except Fault (Option compose_seq) :=
  bsearch_loop key base base.length 0 base.length

/-! ## The key handler -/

/-- The loop `for (i = 0; keys[i] != 0; i++);` over the slots from index `i`
on: the index of the first zero slot. -/
def first_zero : List Nat → Except Fault Nat
  | [] => .error .keys_index
  | k :: rest =>
    if k ≠ 0 then
      match first_zero rest with
      | .ok i => .ok (i + 1)
      | .error f => .error f
    else .ok 0

/-- The loop `for (; j <= i; j++) idx += xkb_keysym_to_utf8(keys[j], text +
idx, sizeof(text) - idx);` with `n` iterations left. `idx` is a `uint32_t`,
`sizeof(text) - idx` a `size_t`. -/
def utf8_loop (utf8 : Nat → List Nat) (keys : keys4) :
    Nat → Nat → Nat → List (Option Nat) → Except Fault (List (Option Nat))
  | 0, _, _, text => .ok text
  | n + 1, j, idx, text =>
    match keys.read j with
    | .error f => .error f
    | .ok k =>
      match xkb_keysym_to_utf8 utf8 k text idx ((64 + 2 ^ 64 - idx) % 2 ^ 64) with
      | .error f => .error f
      | .ok (r, t) => utf8_loop utf8 keys n (j + 1) ((((idx : Int) + r) % 2 ^ 32).toNat) t

open compose_state wl_keyboard_key_state in
/-- The function `simple_im_key_handler(keyboard_input, time, key, sym, state,
data)`. `serial` is the value `display_get_serial(keyboard->display)` has at
the call, `utf8` the text of each keysym. The result is the new
`struct simple_im` and the calls made, in order. Where `strlen(text)` is
taken of a `text` that was never written (a compose run of keys without
text), the handler goes on as the code does: it makes its calls, recorded as
`unwritten`, and sets the compose state. -/
def simple_im_key_handler (utf8 : Nat → List Nat) (serial : Nat) (keyboard : simple_im)
    (time key sym : Nat) (state : wl_keyboard_key_state) :
    Except Fault (simple_im × List Call) :=
  let context := keyboard.context
  if sym = XKB_KEY_Multi_key ∧ state = WL_KEYBOARD_KEY_STATE_RELEASED ∧
      keyboard.compose_state = state_normal then
    .ok ({ keyboard with compose_state := state_compose,
                         compose_seq := ⟨⟨0, 0, 0, 0⟩, []⟩ }, [])
  else if keyboard.compose_state = state_compose then
    if state = WL_KEYBOARD_KEY_STATE_PRESSED then .ok (keyboard, [])
    else if sym ∈ ignore_keys_on_compose then
      .ok (keyboard, [Call.input_method_context_key context serial time key state])
    else
      match first_zero keyboard.compose_seq.keys.slots with
      | .error f => .error f
      | .ok i =>
        match keyboard.compose_seq.keys.write i sym with
        | .error f => .error f
        | .ok ks =>
          let kb : simple_im := { keyboard with compose_seq := { keyboard.compose_seq with keys := ks } }
          match bsearch kb.compose_seq compose_seqs with
          | .error f => .error f
          | .ok (some cs) =>
            match cs.keys.read (i + 1) with
            | .error f => .error f
            | .ok next =>
              if next = 0 then
                .ok ({ kb with compose_state := state_normal },
                  [Call.input_method_context_preedit_string kb.context [] 0,
                   Call.input_method_context_commit_string kb.context cs.text cs.text.length])
              else
                match utf8_loop utf8 cs.keys (i + 1) 0 0 text_uninit with
                | .error f => .error f
                | .ok text =>
                  match cstring text with
                  | .error _ =>
                    .ok (kb, [Call.input_method_context_preedit_string_unwritten kb.context])
                  | .ok str =>
                    .ok (kb, [Call.input_method_context_preedit_string kb.context str str.length])
          | .ok none =>
            match utf8_loop utf8 kb.compose_seq.keys (i + 1) 0 0 text_uninit with
            | .error f => .error f
            | .ok text =>
              match cstring text with
              | .error _ =>
                .ok ({ kb with compose_state := state_normal },
                  [Call.input_method_context_preedit_string kb.context [] 0,
                   Call.input_method_context_commit_string_unwritten kb.context])
              | .ok str =>
                .ok ({ kb with compose_state := state_normal },
                  [Call.input_method_context_preedit_string kb.context [] 0,
                   Call.input_method_context_commit_string kb.context str str.length])
  else
    match xkb_keysym_to_utf8 utf8 sym text_uninit 0 64 with
    | .error f => .error f
    | .ok (r, text) =>
      if r ≤ 0 then
        .ok (keyboard, [Call.input_method_context_key context serial time key state])
      else if state = WL_KEYBOARD_KEY_STATE_PRESSED then .ok (keyboard, [])
      else
        match cstring text with
        | .error _ =>
          .ok (keyboard, [Call.input_method_context_commit_string_unwritten keyboard.context])
        | .ok str =>
          .ok (keyboard, [Call.input_method_context_commit_string keyboard.context str str.length])

/-! ## The other handlers -/

/-- The function `input_method_context_reset`. The message it prints on
stderr is not a call on a collaborator. -/
def input_method_context_reset (keyboard : simple_im) : simple_im × List Call :=
  ({ keyboard with compose_state := compose_state.state_normal }, [])

/-- The function `input_method_keyboard_modifiers`. -/
def input_method_keyboard_modifiers (keyboard : simple_im)
    (serial mods_depressed mods_latched mods_locked group : Nat) : simple_im × List Call :=
  let context := keyboard.context
  (keyboard,
    [Call.keyboard_input_handle_modifiers keyboard.keyboard_input serial
       mods_depressed mods_latched mods_locked group,
     Call.input_method_context_modifiers context serial
       mods_depressed mods_depressed mods_latched group])

/-- The function `input_method_activate`; `grab` is the pointer returned by
`input_method_context_grab_keyboard(context)`. -/
def input_method_activate (keyboard : simple_im) (context grab : Nat) :
    simple_im × List Call :=
  ({ keyboard with compose_state := compose_state.state_normal,
                   context := context,
                   keyboard := grab },
   (if keyboard.context ≠ 0 then [Call.input_method_context_destroy keyboard.context] else []) ++
     [Call.input_method_context_add_listener context,
      Call.input_method_context_grab_keyboard context,
      Call.wl_keyboard_add_listener grab])

/-- The function `input_method_deactivate`; its `context` argument is not
used. -/
def input_method_deactivate (keyboard : simple_im) : simple_im × List Call :=
  if keyboard.context = 0 then (keyboard, [])
  else ({ keyboard with context := 0 }, [Call.input_method_context_destroy keyboard.context])

/-- The `struct simple_im` of `main` when `display_run` starts: zeroed by
`memset`, then `display` and `keyboard_input` set. -/
def simple_im_init (display keyboard_input : Nat) : simple_im :=
  { input_method := 0, context := 0, display := display, keyboard := 0,
    keyboard_input := keyboard_input, compose_state := compose_state.state_normal,
    compose_seq := ⟨⟨0, 0, 0, 0⟩, []⟩ }

/-! ## Event sequences -/

/-- An inbound event, with the values the environment supplies with it. -/
inductive Event where
  | key (serial time key sym : Nat) (state : wl_keyboard_key_state)
  | modifiers (serial mods_depressed mods_latched mods_locked group : Nat)
  | reset
  | activate (context grab : Nat)
  | deactivate
  deriving DecidableEq, Repr

/-- Dispatch of one event to its handler. -/
def step (utf8 : Nat → List Nat) (s : simple_im) : Event → Except Fault (simple_im × List Call)
  | .key serial time key sym state => simple_im_key_handler utf8 serial s time key sym state
  | .modifiers serial d l k g => .ok (input_method_keyboard_modifiers s serial d l k g)
  | .reset => .ok (input_method_context_reset s)
  | .activate context grab => .ok (input_method_activate s context grab)
  | .deactivate => .ok (input_method_deactivate s)

/-- The handlers run over a sequence of events; the calls are collected in
order. A fault ends the run. -/
def run (utf8 : Nat → List Nat) : simple_im → List Event → Except Fault (simple_im × List Call)
  | s, [] => .ok (s, [])
  | s, e :: es =>
    match step utf8 s e with
    | .error f => .error f
    | .ok (s1, c1) =>
      match run utf8 s1 es with
      | .error f => .error f
      | .ok (s2, c2) => .ok (s2, c1 ++ c2)

/-- A sample keysym text function: the printable ASCII keysyms `0x20 .. 0x7e`
have their own code as one-byte text (as in xkbcommon), every other keysym
has none. -/
def ascii_utf8 (sym : Nat) : List Nat :=
  if 0x20 ≤ sym ∧ sym ≤ 0x7e then [sym] else []

/-- What the handlers rely on about keysym texts: UTF-8 text of one code
point has at most 6 bytes, none of them NUL. -/
def utf8_wf (utf8 : Nat → List Nat) : Prop :=
  ∀ k, (utf8 k).length ≤ 6 ∧ ∀ b ∈ utf8 k, b ≠ 0

/-! ## Vocabulary of the statements -/

deriving instance DecidableEq for Except

/-- The keys of a sequence before its first zero slot. -/
def typed_keys (cs : compose_seq) : List Nat := cs.keys.slots.takeWhile (fun k => k ≠ 0)

/-- The comparator returned a negative value. -/
def is_negative : Except Fault Int → Bool
  | .ok c => decide (c < 0)
  | .error _ => false

/-- The comparator returned a positive value. -/
def is_positive : Except Fault Int → Bool
  | .ok c => decide (0 < c)
  | .error _ => false

/-- The search returned an entry. -/
def is_found : Except Fault (Option compose_seq) → Bool
  | .ok (some _) => true
  | _ => false

/-- The search returned an entry that starts with `k` and has a second key. -/
def pending_first (k : Nat) : Except Fault (Option compose_seq) → Bool
  | .ok (some cs) => decide (cs.keys.k0 = k ∧ cs.keys.k1 ≠ 0)
  | _ => false

/-- While composing, only slot 0 of the stored sequence may be non-zero. -/
def compose_keys_ok (s : simple_im) : Prop :=
  s.compose_state = compose_state.state_compose →
    s.compose_seq.keys.k1 = 0 ∧ s.compose_seq.keys.k2 = 0 ∧ s.compose_seq.keys.k3 = 0

/-- While composing, slots 1 to 3 of the stored sequence are zero and the scan
of the key handler stops at an index `i` with `i + 1 < 4`. -/
def keys_in_range (s : simple_im) : Prop :=
  s.compose_state = compose_state.state_compose →
    (s.compose_seq.keys.k1 = 0 ∧ s.compose_seq.keys.k2 = 0 ∧ s.compose_seq.keys.k3 = 0) ∧
    ∃ i, first_zero s.compose_seq.keys.slots = .ok i ∧ i + 1 < 4

/-- The result is a state that satisfies `P`, not a fault. -/
def ends_in (P : simple_im → Prop) : Except Fault (simple_im × List Call) → Prop
  | .ok (s, _) => P s
  | .error _ => False

/-- A released key, as an event. -/
def released (serial time key sym : Nat) : Event :=
  .key serial time key sym wl_keyboard_key_state.WL_KEYBOARD_KEY_STATE_RELEASED

/-- A pressed key, as an event. -/
def pressed (serial time key sym : Nat) : Event :=
  .key serial time key sym wl_keyboard_key_state.WL_KEYBOARD_KEY_STATE_PRESSED

/-- The session in the middle of a compose run that holds quotedbl, with
context `context` and grabbed keyboard `grab`; the other fields are those of
`s0`. -/
def mid_compose (s0 : simple_im) (context grab : Nat) : simple_im :=
  { s0 with context := context, keyboard := grab,
            compose_state := compose_state.state_compose,
            compose_seq := ⟨⟨XKB_KEY_quotedbl, 0, 0, 0⟩, []⟩ }

/-- NoSymbol, Multi_key and the Shift keys have no text, as in xkbcommon. -/
def utf8_plain (utf8 : Nat → List Nat) : Prop :=
  utf8 0 = [] ∧ utf8 XKB_KEY_Multi_key = [] ∧ utf8 XKB_KEY_Shift_L = [] ∧
    utf8 XKB_KEY_Shift_R = []

/-- The contexts handed to `input_method_activate` and not yet destroyed,
after one more event: the context of an activate event is added, every
context the handler destroyed is removed. -/
def track_live (live : List Nat) (ev : Event) (calls : List Call) : List Nat :=
  (match ev with
    | .activate context _ => live.insert context
    | _ => live).filter
    (fun c => decide (Call.input_method_context_destroy c ∉ calls))

/-- The handlers run over a sequence of events, keeping the list of live
contexts next to the session. -/
def run_live (utf8 : Nat → List Nat) :
    simple_im → List Nat → List Event → Except Fault (simple_im × List Nat)
  | s, live, [] => .ok (s, live)
  | s, live, ev :: evs =>
    match step utf8 s ev with
    | .error f => .error f
    | .ok (s1, calls) => run_live utf8 s1 (track_live live ev calls) evs

/-- Every activate event of the sequence hands over a context object that is
not NULL and is not the one the session holds at that moment. -/
def fresh_contexts (utf8 : Nat → List Nat) : simple_im → List Event → Bool
  | _, [] => true
  | s, ev :: evs =>
    (match ev with
      | .activate context _ => decide (context ≠ 0 ∧ context ≠ s.context)
      | _ => true) &&
    (match step utf8 s ev with
      | .error _ => true
      | .ok (s1, _) => fresh_contexts utf8 s1 evs)

/-- The run ended in a state, not in a fault, and the live contexts are none
when the session holds no context, and the held context alone otherwise. -/
def one_live_context : Except Fault (simple_im × List Nat) → Prop
  | .ok (s, live) => live = if s.context = 0 then [] else [s.context]
  | .error _ => False

/-! ## Lemmas on the comparator and the search -/

theorem key_diff_ne_zero {a b : Nat} (ha : a < 2 ^ 32) (hb : b < 2 ^ 32) (hab : a ≠ b) :
    key_diff a b ≠ 0 := by
  unfold key_diff
  simp only
  split <;> omega

/-- The comparator looks at the keys only. -/
theorem compare_compose_keys_text (ks : keys4) (t u : List Nat) (p : compose_seq) :
    compare_compose_keys ⟨ks, t⟩ p = compare_compose_keys ⟨ks, u⟩ p := rfl

theorem bsearch_loop_text (ks : keys4) (t u : List Nat) (base : List compose_seq) (n l h : Nat) :
    bsearch_loop ⟨ks, t⟩ base n l h = bsearch_loop ⟨ks, u⟩ base n l h := by
  induction n generalizing l h with
  | zero => rfl
  | succ n ih =>
    simp only [bsearch_loop, compare_compose_keys_text ks t u, ih]

theorem bsearch_text (ks : keys4) (t u : List Nat) (base : List compose_seq) :
    bsearch ⟨ks, t⟩ base = bsearch ⟨ks, u⟩ base := bsearch_loop_text ks t u base _ _ _

/-- An entry returned by the search is in the table and compares equal. -/
theorem bsearch_loop_sound (key : compose_seq) (base : List compose_seq) (n l u : Nat)
    (e : compose_seq) (h : bsearch_loop key base n l u = .ok (some e)) :
    e ∈ base ∧ compare_compose_keys key e = .ok 0 := by
  induction n generalizing l u with
  | zero =>
    simp only [bsearch_loop] at h
    split at h <;> simp at h
  | succ n ih =>
    simp only [bsearch_loop] at h
    split at h
    · split at h
      · simp at h
      · rename_i p hp
        split at h
        · simp at h
        · rename_i c hc
          split at h
          · exact ih _ _ h
          · split at h
            · exact ih _ _ h
            · have hpe : p = e := by simpa using h
              subst hpe
              have hc0 : c = 0 := by omega
              subst hc0
              exact ⟨List.getElem?_mem hp, hc⟩
    · simp at h

/-- With a comparator that does not fault on the table, the search ends within
its budget with a result. -/
theorem bsearch_loop_total (key : compose_seq) (base : List compose_seq)
    (hc : ∀ e ∈ base, ∃ c, compare_compose_keys key e = .ok c) (n l u : Nat)
    (hu : u ≤ base.length) (hn : u - l ≤ n) :
    ∃ r, bsearch_loop key base n l u = .ok r := by
  induction n generalizing l u with
  | zero =>
    have : ¬ l < u := by omega
    simp [bsearch_loop, this]
  | succ n ih =>
    simp only [bsearch_loop]
    split
    · rename_i hlu
      have hidx : (l + u) / 2 < base.length := by omega
      rw [List.getElem?_eq_getElem hidx]
      simp only
      obtain ⟨c, hcmp⟩ := hc _ (List.getElem_mem hidx)
      rw [hcmp]
      simp only
      split
      · exact ih _ _ (by omega) (by omega)
      · split
        · exact ih _ _ hu (by omega)
        · exact ⟨_, rfl⟩
    · exact ⟨_, rfl⟩

theorem compare_slots_zero_iff (as bs : List Nat) (hlen : as.length = bs.length)
    (h0 : 0 ∈ as) (ha : ∀ x ∈ as, x < 2 ^ 32) (hb : ∀ x ∈ bs, x < 2 ^ 32) :
    compare_slots as bs = .ok 0 ↔
      as.takeWhile (fun k => k ≠ 0) <+: bs.takeWhile (fun k => k ≠ 0) := by
  induction as generalizing bs with
  | nil => simp at h0
  | cons a as ih =>
    cases bs with
    | nil => simp at hlen
    | cons b bs =>
      have hab : a < 2 ^ 32 := ha a (by simp)
      have hbb : b < 2 ^ 32 := hb b (by simp)
      unfold compare_slots
      by_cases hz : a ≠ 0 ∧ b ≠ 0
      · rw [if_pos hz]
        by_cases hne : a ≠ b
        · rw [if_pos hne]
          have := key_diff_ne_zero hab hbb hne
          simp [hz.1, hz.2, List.takeWhile_cons, this, List.cons_prefix_cons, hne]
        · rw [if_neg hne]
          have hab2 : a = b := by omega
          subst hab2
          have h0t : 0 ∈ as := by
            rcases List.mem_cons.1 h0 with h | h
            · exact absurd h.symm hz.1
            · exact h
          rw [ih bs (by simpa using hlen) h0t (fun x hx => ha x (by simp [hx]))
            (fun x hx => hb x (by simp [hx]))]
          simp [hz.1, List.takeWhile_cons, List.cons_prefix_cons]
      · rw [if_neg hz]
        by_cases hq : a = b ∨ a = 0
        · rw [if_pos hq]
          have ha0 : a = 0 := by
            rcases hq with h | h
            · by_contra hn
              exact hz ⟨hn, h ▸ hn⟩
            · exact h
          simp [ha0, List.takeWhile_cons]
        · rw [if_neg hq]
          have hane : a ≠ 0 := fun h => hq (Or.inr h)
          have hb0 : b = 0 := by
            by_contra hn
            exact hz ⟨hane, hn⟩
          have hne : a ≠ b := fun h => hq (Or.inl h)
          have := key_diff_ne_zero hab hbb hne
          subst hb0
          simp [hane, List.takeWhile_cons, this]

theorem compare_slots_total (as bs : List Nat) (hlen : as.length = bs.length)
    (h0 : 0 ∈ as ∨ 0 ∈ bs) : ∃ c, compare_slots as bs = .ok c := by
  induction as generalizing bs with
  | nil =>
    cases bs with
    | nil => simp at h0
    | cons b bs => simp at hlen
  | cons a as ih =>
    cases bs with
    | nil => simp at hlen
    | cons b bs =>
      unfold compare_slots
      split
      · rename_i hz
        split
        · exact ⟨_, rfl⟩
        · refine ih bs (by simpa using hlen) ?_
          rcases h0 with h | h
          · rcases List.mem_cons.1 h with h | h
            · exact absurd h.symm hz.1
            · exact Or.inl h
          · rcases List.mem_cons.1 h with h | h
            · exact absurd h.symm hz.2
            · exact Or.inr h
      · split <;> exact ⟨_, rfl⟩

theorem compare_total_of_sentinel (key e : compose_seq) (h : e.keys.k3 = 0) :
    ∃ c, compare_compose_keys key e = .ok c :=
  compare_slots_total _ _ rfl (Or.inr (by simp [keys4.slots, h]))

theorem compose_seqs_sentinel : ∀ e ∈ compose_seqs, e.keys.k2 = 0 ∧ e.keys.k3 = 0 := by decide

theorem compose_seqs_bound : ∀ e ∈ compose_seqs, ∀ x ∈ e.keys.slots, x < 2 ^ 32 := by decide

theorem bsearch_total (key : compose_seq) : ∃ r, bsearch key compose_seqs = .ok r :=
  bsearch_loop_total key compose_seqs
    (fun e he => compare_total_of_sentinel key e (compose_seqs_sentinel e he).2) _ _ _
    (Nat.le_refl _) (by omega)

theorem typed_keys_two (k1 k2 : Nat) (t : List Nat) (h1 : k1 ≠ 0) :
    typed_keys ⟨⟨k1, k2, 0, 0⟩, t⟩ = if k2 = 0 then [k1] else [k1, k2] := by
  by_cases h2 : k2 = 0 <;> simp [typed_keys, keys4.slots, List.takeWhile_cons, h1, h2]

theorem compare_zero_iff (key e : compose_seq) (hk : key.keys.k3 = 0)
    (ha : ∀ x ∈ key.keys.slots, x < 2 ^ 32) (hb : ∀ x ∈ e.keys.slots, x < 2 ^ 32) :
    compare_compose_keys key e = .ok 0 ↔ typed_keys key <+: typed_keys e :=
  compare_slots_zero_iff _ _ rfl (by simp [keys4.slots, hk]) ha hb

theorem compose_seqs_typed : ∀ e ∈ compose_seqs, typed_keys e = [e.keys.k0, e.keys.k1] := by
  decide

theorem compose_seqs_found_first :
    ∀ e ∈ compose_seqs, is_found (bsearch ⟨⟨e.keys.k0, 0, 0, 0⟩, []⟩ compose_seqs) = true := by
  decide

theorem compose_seqs_found_both :
    ∀ e ∈ compose_seqs,
      bsearch ⟨⟨e.keys.k0, e.keys.k1, 0, 0⟩, []⟩ compose_seqs = .ok (some e) := by
  decide

theorem lookup_complete (k1 k2 : Nat) (t : List Nat) (h1 : k1 ≠ 0)
    (h : ∃ e ∈ compose_seqs, typed_keys ⟨⟨k1, k2, 0, 0⟩, t⟩ <+: typed_keys e) :
    is_found (bsearch ⟨⟨k1, k2, 0, 0⟩, t⟩ compose_seqs) = true := by
  rw [bsearch_text _ t []]
  obtain ⟨e, he, hp⟩ := h
  rw [typed_keys_two k1 k2 t h1, compose_seqs_typed e he] at hp
  by_cases h2 : k2 = 0
  · subst h2
    simp [List.cons_prefix_cons] at hp
    subst hp
    exact compose_seqs_found_first e he
  · rw [if_neg h2] at hp
    simp [List.cons_prefix_cons] at hp
    obtain ⟨ha, hb⟩ := hp
    subst ha
    subst hb
    rw [compose_seqs_found_both e he]
    rfl

theorem compose_seqs_second : ∀ e ∈ compose_seqs, e.keys.k1 ≠ 0 := by decide

/-! ## Lemmas on the text buffer -/

theorem cstring_terminated (bs : List Nat) (rest : List (Option Nat))
    (hnz : ∀ b ∈ bs, b ≠ 0) :
    cstring (bs.map some ++ some 0 :: rest) = .ok bs := by
  induction bs with
  | nil => simp [cstring]
  | cons b bs ih =>
    have hb : b ≠ 0 := hnz b (by simp)
    simp [cstring, hb, ih (fun x hx => hnz x (by simp [hx]))]

theorem store_head (text : List (Option Nat)) (bs : List Nat) (h : bs.length ≤ text.length) :
    store text 0 bs = .ok (bs.map some ++ text.drop bs.length) := by
  simp [store, h]

/-- Writing the text of one keysym at the head of the fresh buffer. -/
theorem xkb_keysym_to_utf8_head (utf8 : Nat → List Nat) (hwf : utf8_wf utf8) (k : Nat)
    (hk : utf8 k ≠ []) :
    ∃ rest, xkb_keysym_to_utf8 utf8 k text_uninit 0 64 =
      .ok (((utf8 k).length + 1 : Nat), (utf8 k).map some ++ some 0 :: rest) := by
  have hlen := (hwf k).1
  have hst := store_head text_uninit (utf8 k ++ [0])
    (by simp [text_uninit]; omega)
  refine ⟨text_uninit.drop ((utf8 k).length + 1), ?_⟩
  simp only [xkb_keysym_to_utf8, hk, if_false]
  rw [hst]
  simp

theorem utf8_wf_ascii : utf8_wf ascii_utf8 := by
  intro k
  unfold ascii_utf8
  split
  · simp; omega
  · simp

theorem compose_seqs_pending_first :
    ∀ e ∈ compose_seqs,
      pending_first e.keys.k0 (bsearch ⟨⟨e.keys.k0, 0, 0, 0⟩, []⟩ compose_seqs) = true := by
  decide

theorem compose_seqs_plain_keys :
    ∀ e ∈ compose_seqs,
      e.keys.k0 ≠ 0 ∧ e.keys.k0 ∉ ignore_keys_on_compose ∧ e.keys.k1 ∉ ignore_keys_on_compose := by
  decide

/-! ## The invariant of the stored sequence -/

/-- With texts of at most 6 bytes the primitive writes inside `text[64]` as
long as it starts at most 57 bytes in: it returns a count between 0 and 7
and the buffer keeps its size. -/
theorem xkb_keysym_to_utf8_fits (utf8 : Nat → List Nat) (hwf : utf8_wf utf8) (k : Nat)
    (t : List (Option Nat)) (off : Nat) (ht : t.length = 64) (hoff : off + 7 ≤ 64) :
    ∃ (r : Nat) (t1 : List (Option Nat)),
      xkb_keysym_to_utf8 utf8 k t off ((64 + 2 ^ 64 - off) % 2 ^ 64) = .ok ((r : Int), t1) ∧
      r ≤ 7 ∧ t1.length = 64 := by
  have hlen := (hwf k).1
  have hsize : ¬ (64 + 2 ^ 64 - off) % 2 ^ 64 < 7 := by omega
  unfold xkb_keysym_to_utf8
  rw [if_neg hsize]
  by_cases hk : utf8 k = []
  · exact ⟨0, t, by simp [hk], by omega, ht⟩
  · rw [if_neg hk]
    have hst : off + (utf8 k ++ [0]).length ≤ t.length := by
      simp only [List.length_append, List.length_singleton]
      omega
    simp only [store, hst, if_true]
    refine ⟨(utf8 k).length + 1, _, rfl, by omega, ?_⟩
    simp only [List.length_append, List.length_take, List.length_map, List.length_singleton,
      List.length_drop]
    omega

/-- With texts of at most 6 bytes the loop over at most four keys stays
inside `text[64]` and inside `keys[4]`. -/
theorem utf8_loop_total (utf8 : Nat → List Nat) (hwf : utf8_wf utf8) (keys : keys4)
    (n j idx : Nat) (t : List (Option Nat)) (hj : j + n ≤ 4) (ht : t.length = 64)
    (hidx : idx + 7 * n ≤ 28) :
    ∃ t1, utf8_loop utf8 keys n j idx t = .ok t1 := by
  induction n generalizing j idx t with
  | zero => exact ⟨t, rfl⟩
  | succ n ih =>
    simp only [utf8_loop]
    have hr : ∃ k, keys.read j = .ok k := by
      have : j = 0 ∨ j = 1 ∨ j = 2 ∨ j = 3 := by omega
      rcases this with rfl | rfl | rfl | rfl <;> exact ⟨_, rfl⟩
    obtain ⟨k, hk⟩ := hr
    obtain ⟨r, t1, hx, hr7, ht1⟩ := xkb_keysym_to_utf8_fits utf8 hwf k t idx ht (by omega)
    rw [hk]
    simp only
    rw [hx]
    simp only
    have hnew : ((((idx : Int) + (r : Int)) % 2 ^ 32).toNat) = idx + r := by omega
    rw [hnew]
    exact ih (j + 1) (idx + r) t1 (by omega) ht1 (by omega)

theorem ends_in_ok (P : simple_im → Prop) (r : Except Fault (simple_im × List Call))
    (h : ends_in P r) : ∃ s calls, r = .ok (s, calls) ∧ P s := by
  match r, h with
  | .ok (s, calls), h => exact ⟨s, calls, rfl, h⟩

theorem key_handler_total (utf8 : Nat → List Nat) (hwf : utf8_wf utf8) (serial : Nat)
    (s : simple_im) (time key sym : Nat) (state : wl_keyboard_key_state)
    (h : compose_keys_ok s) :
    ends_in compose_keys_ok (simple_im_key_handler utf8 serial s time key sym state) := by
  unfold simple_im_key_handler
  simp only
  split
  · simp [ends_in, compose_keys_ok]
  · split
    · rename_i hc
      obtain ⟨h1, h2, h3⟩ := h hc
      split
      · exact h
      · split
        · exact h
        · obtain ⟨⟨⟨k0, k1, k2, k3⟩, txt⟩, hs⟩ : ∃ c, s.compose_seq = c := ⟨_, rfl⟩
          rw [hs] at h1 h2 h3 ⊢
          simp only at h1 h2 h3
          subst h1 h2 h3
          obtain ⟨r, hr⟩ := bsearch_total
            ⟨(if k0 = 0 then ⟨sym, 0, 0, 0⟩ else ⟨k0, sym, 0, 0⟩ : keys4), txt⟩
          by_cases hk0 : k0 = 0
          · subst hk0
            simp only [if_true] at hr
            simp only [keys4.slots, first_zero, keys4.write, ne_eq, not_true_eq_false, if_false,
              hr]
            cases r with
            | none =>
              obtain ⟨t1, ht1⟩ := utf8_loop_total utf8 hwf ⟨sym, 0, 0, 0⟩ (0 + 1) 0 0 text_uninit
                (by omega) (by simp [text_uninit]) (by omega)
              simp only [ht1]
              split <;> simp [ends_in, compose_keys_ok]
            | some cs =>
              simp only [keys4.read]
              split
              · simp [ends_in, compose_keys_ok]
              · obtain ⟨t1, ht1⟩ := utf8_loop_total utf8 hwf cs.keys (0 + 1) 0 0 text_uninit
                  (by omega) (by simp [text_uninit]) (by omega)
                simp only [ht1]
                split <;> simp [ends_in, compose_keys_ok]
          · simp only [hk0, if_false] at hr
            simp only [keys4.slots, first_zero, keys4.write, ne_eq, not_true_eq_false, if_false,
              hk0, not_false_eq_true, if_true, hr]
            cases r with
            | none =>
              obtain ⟨t1, ht1⟩ := utf8_loop_total utf8 hwf ⟨k0, sym, 0, 0⟩ (0 + 1 + 1) 0 0
                text_uninit (by omega) (by simp [text_uninit]) (by omega)
              simp only [ht1]
              split <;> simp [ends_in, compose_keys_ok]
            | some cs =>
              have hcs := (compose_seqs_sentinel cs (bsearch_loop_sound _ _ _ _ _ _ hr).1).1
              simp [keys4.read, hcs, ends_in, compose_keys_ok]
    · obtain ⟨r, t1, hx, _, _⟩ := xkb_keysym_to_utf8_fits utf8 hwf sym text_uninit 0
        (by simp [text_uninit]) (by omega)
      have hx64 : xkb_keysym_to_utf8 utf8 sym text_uninit 0 64 = .ok ((r : Int), t1) := by
        simpa using hx
      rw [hx64]
      simp only
      split
      · exact h
      · split
        · exact h
        · split <;> exact h

theorem step_total (utf8 : Nat → List Nat) (hwf : utf8_wf utf8) (s : simple_im) (ev : Event)
    (h : compose_keys_ok s) : ends_in compose_keys_ok (step utf8 s ev) := by
  cases ev with
  | key serial time key sym state =>
    exact key_handler_total utf8 hwf serial s time key sym state h
  | modifiers serial d l k g => exact h
  | reset => simp [step, input_method_context_reset, ends_in, compose_keys_ok]
  | activate context grab => simp [step, input_method_activate, ends_in, compose_keys_ok]
  | deactivate =>
    simp only [step, input_method_deactivate]
    split
    · exact h
    · exact h

theorem run_total (utf8 : Nat → List Nat) (hwf : utf8_wf utf8) (evs : List Event)
    (s : simple_im) (h : compose_keys_ok s) : ends_in compose_keys_ok (run utf8 s evs) := by
  induction evs generalizing s with
  | nil => exact h
  | cons ev evs ih =>
    obtain ⟨s1, c1, h1, hk1⟩ := ends_in_ok _ _ (step_total utf8 hwf s ev h)
    obtain ⟨s2, c2, h2, hk2⟩ := ends_in_ok _ _ (ih s1 hk1)
    simp only [run, h1, h2]
    exact hk2

theorem keys_in_range_of_ok (s : simple_im) (h : compose_keys_ok s) : keys_in_range s := by
  intro hc
  obtain ⟨h1, h2, h3⟩ := h hc
  refine ⟨⟨h1, h2, h3⟩, ?_⟩
  simp only [keys4.slots, first_zero, h1, ne_eq, not_true_eq_false, if_false]
  split
  · exact ⟨1, rfl, by omega⟩
  · exact ⟨0, rfl, by omega⟩

/-! ## Steps of a compose run -/

open compose_state wl_keyboard_key_state

/-- A released `Multi_key` in Normal state starts a compose run. -/
theorem key_handler_multi_key (utf8 : Nat → List Nat) (serial : Nat) (s : simple_im)
    (time key : Nat) (hn : s.compose_state = state_normal) :
    simple_im_key_handler utf8 serial s time key XKB_KEY_Multi_key
        WL_KEYBOARD_KEY_STATE_RELEASED =
      .ok ({ s with compose_state := state_compose, compose_seq := ⟨⟨0, 0, 0, 0⟩, []⟩ }, []) := by
  simp only [simple_im_key_handler, hn, and_self, if_true]

/-- The first key of a table entry, released at the start of a compose run,
is shown as pre-edit. -/
theorem key_handler_first_key (utf8 : Nat → List Nat) (hwf : utf8_wf utf8)
    (e : compose_seq) (he : e ∈ compose_seqs) (htext : utf8 e.keys.k0 ≠ [])
    (s : simple_im) (serial time key : Nat) :
    simple_im_key_handler utf8 serial
        { s with compose_state := state_compose, compose_seq := ⟨⟨0, 0, 0, 0⟩, []⟩ }
        time key e.keys.k0 WL_KEYBOARD_KEY_STATE_RELEASED =
      .ok ({ s with compose_state := state_compose,
                    compose_seq := ⟨⟨e.keys.k0, 0, 0, 0⟩, []⟩ },
           [Call.input_method_context_preedit_string s.context
              (utf8 e.keys.k0) (utf8 e.keys.k0).length]) := by
  obtain ⟨_, hi0, _⟩ := compose_seqs_plain_keys e he
  have hp := compose_seqs_pending_first e he
  simp only [simple_im_key_handler, reduceCtorEq, and_false, if_false, hi0, if_true,
    keys4.slots, first_zero, keys4.write, ne_eq, not_true_eq_false]
  generalize bsearch ⟨⟨e.keys.k0, 0, 0, 0⟩, []⟩ compose_seqs = r at hp
  match r, hp with
  | .ok (some cs), hp =>
    simp only [pending_first, decide_eq_true_eq] at hp
    obtain ⟨hc0, hc1⟩ := hp
    obtain ⟨rest, hx⟩ := xkb_keysym_to_utf8_head utf8 hwf e.keys.k0 htext
    simp only [keys4.read, hc1, if_false, utf8_loop, hc0]
    norm_num [hx, cstring_terminated _ _ (hwf e.keys.k0).2]

/-- The second key of a table entry, released after its first key, commits
the text of the entry. -/
theorem key_handler_second_key (utf8 : Nat → List Nat)
    (e : compose_seq) (he : e ∈ compose_seqs) (s : simple_im) (serial time key : Nat) :
    simple_im_key_handler utf8 serial
        { s with compose_state := state_compose, compose_seq := ⟨⟨e.keys.k0, 0, 0, 0⟩, []⟩ }
        time key e.keys.k1 WL_KEYBOARD_KEY_STATE_RELEASED =
      .ok ({ s with compose_state := state_normal,
                    compose_seq := ⟨⟨e.keys.k0, e.keys.k1, 0, 0⟩, []⟩ },
           [Call.input_method_context_preedit_string s.context [] 0,
            Call.input_method_context_commit_string s.context e.text e.text.length]) := by
  obtain ⟨hk0, _, hi1⟩ := compose_seqs_plain_keys e he
  have hk2 := (compose_seqs_sentinel e he).1
  have hb := compose_seqs_found_both e he
  simp only [simple_im_key_handler, reduceCtorEq, and_false, if_false, hi1, if_true,
    keys4.slots, first_zero, keys4.write, ne_eq, not_true_eq_false, hk0, not_false_eq_true, hb,
    keys4.read, hk2]

/-! ## The claims -/

/-- C1. For every entry `e` of the compose table, with first key `e.keys.k0`,
second key `e.keys.k1` and text `e.text`: from a state in Normal compose
state, the released `Multi_key` makes no call and starts composing with an
empty sequence; the released first key then makes exactly one
pre-edit-string call carrying the text of that key; the released second key
then makes a pre-edit-string call with the empty string followed by
commit-string of the entry text, and the compose state is Normal again. -/
theorem C1_compose_entry (utf8 : Nat → List Nat) (hwf : utf8_wf utf8)
    (e : compose_seq) (he : e ∈ compose_seqs) (htext : utf8 e.keys.k0 ≠ [])
    (s : simple_im) (hn : s.compose_state = state_normal)
    (serial1 time1 key1 serial2 time2 key2 serial3 time3 key3 : Nat) :
    simple_im_key_handler utf8 serial1 s time1 key1 XKB_KEY_Multi_key
        WL_KEYBOARD_KEY_STATE_RELEASED =
      .ok ({ s with compose_state := state_compose, compose_seq := ⟨⟨0, 0, 0, 0⟩, []⟩ }, []) ∧
    simple_im_key_handler utf8 serial2
        { s with compose_state := state_compose, compose_seq := ⟨⟨0, 0, 0, 0⟩, []⟩ }
        time2 key2 e.keys.k0 WL_KEYBOARD_KEY_STATE_RELEASED =
      .ok ({ s with compose_state := state_compose,
                    compose_seq := ⟨⟨e.keys.k0, 0, 0, 0⟩, []⟩ },
           [Call.input_method_context_preedit_string s.context
              (utf8 e.keys.k0) (utf8 e.keys.k0).length]) ∧
    simple_im_key_handler utf8 serial3
        { s with compose_state := state_compose, compose_seq := ⟨⟨e.keys.k0, 0, 0, 0⟩, []⟩ }
        time3 key3 e.keys.k1 WL_KEYBOARD_KEY_STATE_RELEASED =
      .ok ({ s with compose_state := state_normal,
                    compose_seq := ⟨⟨e.keys.k0, e.keys.k1, 0, 0⟩, []⟩ },
           [Call.input_method_context_preedit_string s.context [] 0,
            Call.input_method_context_commit_string s.context e.text e.text.length]) :=
  ⟨key_handler_multi_key utf8 serial1 s time1 key1 hn,
   key_handler_first_key utf8 hwf e he htext s serial2 time2 key2,
   key_handler_second_key utf8 e he s serial3 time3 key3⟩

/-- C1, at the entry (quotedbl, A) with the ASCII texts and an activated
session: the pre-edit shows the quotation mark, the commit carries the two
bytes `C3 84` of "Ä". -/
theorem C1_compose_entry_witness :
    utf8_wf ascii_utf8 ∧
    (⟨⟨XKB_KEY_quotedbl, XKB_KEY_A, 0, 0⟩, [0xC3, 0x84]⟩ : compose_seq) ∈ compose_seqs ∧
    ascii_utf8 XKB_KEY_quotedbl ≠ [] ∧
    simple_im_key_handler ascii_utf8 9 (input_method_activate (simple_im_init 1 2) 5 6).1
        100 30 XKB_KEY_Multi_key WL_KEYBOARD_KEY_STATE_RELEASED =
      .ok (⟨0, 5, 1, 6, 2, state_compose, ⟨⟨0, 0, 0, 0⟩, []⟩⟩, []) ∧
    simple_im_key_handler ascii_utf8 9 ⟨0, 5, 1, 6, 2, state_compose, ⟨⟨0, 0, 0, 0⟩, []⟩⟩
        101 31 XKB_KEY_quotedbl WL_KEYBOARD_KEY_STATE_RELEASED =
      .ok (⟨0, 5, 1, 6, 2, state_compose, ⟨⟨XKB_KEY_quotedbl, 0, 0, 0⟩, []⟩⟩,
           [Call.input_method_context_preedit_string 5 [0x22] 1]) ∧
    simple_im_key_handler ascii_utf8 9
        ⟨0, 5, 1, 6, 2, state_compose, ⟨⟨XKB_KEY_quotedbl, 0, 0, 0⟩, []⟩⟩
        102 32 XKB_KEY_A WL_KEYBOARD_KEY_STATE_RELEASED =
      .ok (⟨0, 5, 1, 6, 2, state_normal, ⟨⟨XKB_KEY_quotedbl, XKB_KEY_A, 0, 0⟩, []⟩⟩,
           [Call.input_method_context_preedit_string 5 [] 0,
            Call.input_method_context_commit_string 5 [0xC3, 0x84] 2]) :=
  ⟨utf8_wf_ascii, by decide, by decide,
   C1_compose_entry ascii_utf8 utf8_wf_ascii ⟨⟨XKB_KEY_quotedbl, XKB_KEY_A, 0, 0⟩, [0xC3, 0x84]⟩
     (by decide) (by decide) (input_method_activate (simple_im_init 1 2) 5 6).1 rfl
     9 100 30 9 101 31 9 102 32⟩

/-- C2. For a search key of one or two non-zero 32-bit keysyms (`k2 = 0`
stands for a key of length one), the binary search of the table ends with a
result; it returns an entry exactly when the typed keys are an initial
segment of the keys of some table entry; a returned entry is in the table
and has the typed keys as an initial segment; and the slot of the entry just
after the typed length, which the engine tests against zero, can be read and
is zero exactly when the typed keys are the whole key sequence of the
entry. -/
theorem C2_lookup_contract (k1 k2 : Nat) (t : List Nat)
    (h1 : k1 ≠ 0) (hb1 : k1 < 2 ^ 32) (hb2 : k2 < 2 ^ 32) :
    ∃ r, bsearch ⟨⟨k1, k2, 0, 0⟩, t⟩ compose_seqs = .ok r ∧
      (r.isSome = true ↔
        ∃ e ∈ compose_seqs, typed_keys ⟨⟨k1, k2, 0, 0⟩, t⟩ <+: typed_keys e) ∧
      ∀ e, r = some e →
        e ∈ compose_seqs ∧ typed_keys ⟨⟨k1, k2, 0, 0⟩, t⟩ <+: typed_keys e ∧
        ∃ next, e.keys.read (typed_keys ⟨⟨k1, k2, 0, 0⟩, t⟩).length = .ok next ∧
          (next = 0 ↔ typed_keys ⟨⟨k1, k2, 0, 0⟩, t⟩ = typed_keys e) := by
  obtain ⟨r, hr⟩ := bsearch_total ⟨⟨k1, k2, 0, 0⟩, t⟩
  have hkey : ∀ x ∈ (⟨⟨k1, k2, 0, 0⟩, t⟩ : compose_seq).keys.slots, x < 2 ^ 32 := by
    intro x hx
    simp [keys4.slots] at hx
    rcases hx with rfl | rfl | rfl <;> first | assumption | decide
  have hsound : ∀ e, r = some e →
      e ∈ compose_seqs ∧ typed_keys ⟨⟨k1, k2, 0, 0⟩, t⟩ <+: typed_keys e := by
    intro e he
    subst he
    obtain ⟨hm, hc⟩ := bsearch_loop_sound _ _ _ _ _ _ hr
    exact ⟨hm, (compare_zero_iff _ _ rfl hkey (compose_seqs_bound _ hm)).1 hc⟩
  refine ⟨r, hr, ⟨?_, ?_⟩, ?_⟩
  · intro hs
    cases r with
    | none => simp at hs
    | some e => exact ⟨e, hsound e rfl⟩
  · intro h
    have hf := lookup_complete k1 k2 t h1 h
    rw [hr] at hf
    cases r with
    | none => simp [is_found] at hf
    | some e => rfl
  · intro e he
    obtain ⟨hm, hp⟩ := hsound e he
    refine ⟨hm, hp, ?_⟩
    have hk2 := (compose_seqs_sentinel e hm).1
    have hk1 := compose_seqs_second e hm
    rw [typed_keys_two k1 k2 t h1, compose_seqs_typed e hm] at hp ⊢
    by_cases h2 : k2 = 0
    · simp only [h2, if_true, List.length_singleton]
      exact ⟨e.keys.k1, rfl, by simp [hk1]⟩
    · simp only [h2, if_false, List.length_cons, List.length_nil] at hp ⊢
      refine ⟨e.keys.k2, rfl, ?_⟩
      simp only [hk2, true_iff]
      simpa [List.cons_prefix_cons] using hp

/-- C2, at the lone key quotedbl, which is the start of six entries. -/
theorem C2_lookup_contract_witness :
    (XKB_KEY_quotedbl ≠ 0 ∧ XKB_KEY_quotedbl < 2 ^ 32 ∧ 0 < 2 ^ 32) ∧
    ∃ r, bsearch ⟨⟨XKB_KEY_quotedbl, 0, 0, 0⟩, []⟩ compose_seqs = .ok r ∧
      (r.isSome = true ↔
        ∃ e ∈ compose_seqs,
          typed_keys ⟨⟨XKB_KEY_quotedbl, 0, 0, 0⟩, []⟩ <+: typed_keys e) ∧
      ∀ e, r = some e →
        e ∈ compose_seqs ∧
        typed_keys ⟨⟨XKB_KEY_quotedbl, 0, 0, 0⟩, []⟩ <+: typed_keys e ∧
        ∃ next,
          e.keys.read (typed_keys ⟨⟨XKB_KEY_quotedbl, 0, 0, 0⟩, []⟩).length = .ok next ∧
          (next = 0 ↔ typed_keys ⟨⟨XKB_KEY_quotedbl, 0, 0, 0⟩, []⟩ = typed_keys e) :=
  ⟨by decide,
   C2_lookup_contract XKB_KEY_quotedbl 0 [] (by decide) (by decide) (by decide)⟩

/-- C3. From the zero-initialised session, for every sequence of events (key
events pressed or released with any sym, modifiers, reset, activate,
deactivate) the run of the handlers ends in a state, never in a fault: no
index into a `keys` array or into the table is out of range, in the scan of
the stored sequence, the write at `keys[i]`, the read of `keys[i + 1]` of
the matched entry and the reads of the comparator during the search. In the
state after the run, while composing, slots 1 to 3 of the stored sequence
are zero and the scan of the key handler stops at an index `i` with
`i + 1 < 4`. The same holds from every state in which slots 1 to 3 are zero
while composing. Keysym texts have at most 6 bytes, none of them NUL. -/
theorem C3_keys_never_out_of_range (utf8 : Nat → List Nat) (hwf : utf8_wf utf8)
    (display keyboard_input : Nat) (evs : List Event) :
    (∃ s calls, run utf8 (simple_im_init display keyboard_input) evs = .ok (s, calls) ∧
      keys_in_range s) ∧
    ∀ s0 : simple_im, compose_keys_ok s0 →
      ∃ s calls, run utf8 s0 evs = .ok (s, calls) ∧ keys_in_range s := by
  have hall : ∀ s0 : simple_im, compose_keys_ok s0 →
      ∃ s calls, run utf8 s0 evs = .ok (s, calls) ∧ keys_in_range s := by
    intro s0 hs
    obtain ⟨s, calls, hrun, hk⟩ := ends_in_ok _ _ (run_total utf8 hwf evs s0 hs)
    exact ⟨s, calls, hrun, keys_in_range_of_ok s hk⟩
  exact ⟨hall _ (by simp [compose_keys_ok, simple_im_init]), hall⟩

/-- C3, on a sequence with compose runs of keys without text (Multi_key after
Multi_key, then F1 after quotedbl): the run goes on after each of them and
ends composing with quotedbl alone in the stored sequence. -/
theorem C3_keys_never_out_of_range_witness :
    utf8_wf ascii_utf8 ∧
    run ascii_utf8 (simple_im_init 1 2)
        [Event.activate 5 6, released 9 100 30 XKB_KEY_Multi_key,
         released 9 101 30 XKB_KEY_Multi_key, released 9 102 30 XKB_KEY_Multi_key,
         released 9 103 31 XKB_KEY_quotedbl, released 9 104 59 0xffbe,
         released 9 105 30 XKB_KEY_Multi_key, released 9 106 31 XKB_KEY_quotedbl] =
      .ok (⟨0, 5, 1, 6, 2, state_compose, ⟨⟨XKB_KEY_quotedbl, 0, 0, 0⟩, []⟩⟩,
           [Call.input_method_context_add_listener 5,
            Call.input_method_context_grab_keyboard 5,
            Call.wl_keyboard_add_listener 6,
            Call.input_method_context_preedit_string 5 [] 0,
            Call.input_method_context_commit_string_unwritten 5,
            Call.input_method_context_preedit_string 5 [0x22] 1,
            Call.input_method_context_preedit_string 5 [] 0,
            Call.input_method_context_commit_string 5 [0x22] 1,
            Call.input_method_context_preedit_string 5 [0x22] 1]) ∧
    ∃ s calls,
      run ascii_utf8 (simple_im_init 1 2)
        [Event.activate 5 6, released 9 100 30 XKB_KEY_Multi_key,
         released 9 101 30 XKB_KEY_Multi_key, released 9 102 30 XKB_KEY_Multi_key,
         released 9 103 31 XKB_KEY_quotedbl, released 9 104 59 0xffbe,
         released 9 105 30 XKB_KEY_Multi_key, released 9 106 31 XKB_KEY_quotedbl] =
        .ok (s, calls) ∧ keys_in_range s :=
  ⟨utf8_wf_ascii, by decide,
   (C3_keys_never_out_of_range ascii_utf8 utf8_wf_ascii 1 2
      [Event.activate 5 6, released 9 100 30 XKB_KEY_Multi_key,
       released 9 101 30 XKB_KEY_Multi_key, released 9 102 30 XKB_KEY_Multi_key,
       released 9 103 31 XKB_KEY_quotedbl, released 9 104 59 0xffbe,
       released 9 105 30 XKB_KEY_Multi_key, released 9 106 31 XKB_KEY_quotedbl]).1⟩

/-- C4, evaluated at Multi_key, quotedbl, z (all released) with the ASCII
texts: the fallback clears the pre-edit and commits the one byte of the
quotation mark, not the two bytes of the quotation mark followed by z. The
text of z was written behind the NUL that ends the first text. -/
theorem C4_fallback_commits_first_text_only :
    run ascii_utf8 (input_method_activate (simple_im_init 1 2) 5 6).1
        [released 9 100 30 XKB_KEY_Multi_key, released 9 101 31 XKB_KEY_quotedbl,
         released 9 102 32 0x7a] =
      .ok (⟨0, 5, 1, 6, 2, state_normal, ⟨⟨XKB_KEY_quotedbl, 0x7a, 0, 0⟩, []⟩⟩,
           [Call.input_method_context_preedit_string 5 [0x22] 1,
            Call.input_method_context_preedit_string 5 [] 0,
            Call.input_method_context_commit_string 5 [0x22] 1]) ∧
    ascii_utf8 XKB_KEY_quotedbl ++ ascii_utf8 0x7a = [0x22, 0x7a] := by
  decide

/-- C5 as stated fails for the pressed edge: while composing, a pressed
Shift_L makes no call at all, so it is not forwarded. -/
theorem C5_pressed_shift_counterexample :
    simple_im_key_handler ascii_utf8 9
        ⟨0, 5, 1, 6, 2, state_compose, ⟨⟨XKB_KEY_quotedbl, 0, 0, 0⟩, []⟩⟩
        100 42 XKB_KEY_Shift_L WL_KEYBOARD_KEY_STATE_PRESSED =
      .ok (⟨0, 5, 1, 6, 2, state_compose, ⟨⟨XKB_KEY_quotedbl, 0, 0, 0⟩, []⟩⟩, []) ∧
    simple_im_key_handler ascii_utf8 9
        ⟨0, 5, 1, 6, 2, state_compose, ⟨⟨XKB_KEY_quotedbl, 0, 0, 0⟩, []⟩⟩
        100 42 XKB_KEY_Shift_L WL_KEYBOARD_KEY_STATE_PRESSED ≠
      .ok (⟨0, 5, 1, 6, 2, state_compose, ⟨⟨XKB_KEY_quotedbl, 0, 0, 0⟩, []⟩⟩,
           [Call.input_method_context_key 5 9 100 42 WL_KEYBOARD_KEY_STATE_PRESSED]) := by
  decide

/-- C5, amended. While composing, for sym Shift_L or Shift_R: a released key
makes exactly one forward-key call carrying the time, hardware key and
action of the event (and the serial of the display); a pressed key makes no
call; both leave the whole session state, compose state and stored sequence
included, unchanged. -/
theorem C5_shift_while_composing (utf8 : Nat → List Nat) (s : simple_im)
    (hc : s.compose_state = state_compose) (serial time key sym : Nat)
    (hsym : sym = XKB_KEY_Shift_L ∨ sym = XKB_KEY_Shift_R) :
    simple_im_key_handler utf8 serial s time key sym WL_KEYBOARD_KEY_STATE_RELEASED =
      .ok (s, [Call.input_method_context_key s.context serial time key
                 WL_KEYBOARD_KEY_STATE_RELEASED]) ∧
    simple_im_key_handler utf8 serial s time key sym WL_KEYBOARD_KEY_STATE_PRESSED =
      .ok (s, []) := by
  have hmem : sym ∈ ignore_keys_on_compose := by
    rcases hsym with h | h <;> simp [ignore_keys_on_compose, h]
  constructor
  · simp [simple_im_key_handler, hc, hmem]
  · simp [simple_im_key_handler, hc]

/-- C5 amended, at Shift_R in a compose run that holds quotedbl. -/
theorem C5_shift_while_composing_witness :
    (⟨0, 5, 1, 6, 2, state_compose, ⟨⟨XKB_KEY_quotedbl, 0, 0, 0⟩, []⟩⟩ : simple_im).compose_state
      = state_compose ∧
    (XKB_KEY_Shift_R = XKB_KEY_Shift_L ∨ XKB_KEY_Shift_R = XKB_KEY_Shift_R) ∧
    simple_im_key_handler ascii_utf8 9
        ⟨0, 5, 1, 6, 2, state_compose, ⟨⟨XKB_KEY_quotedbl, 0, 0, 0⟩, []⟩⟩
        101 54 XKB_KEY_Shift_R WL_KEYBOARD_KEY_STATE_RELEASED =
      .ok (⟨0, 5, 1, 6, 2, state_compose, ⟨⟨XKB_KEY_quotedbl, 0, 0, 0⟩, []⟩⟩,
           [Call.input_method_context_key 5 9 101 54 WL_KEYBOARD_KEY_STATE_RELEASED]) ∧
    simple_im_key_handler ascii_utf8 9
        ⟨0, 5, 1, 6, 2, state_compose, ⟨⟨XKB_KEY_quotedbl, 0, 0, 0⟩, []⟩⟩
        101 54 XKB_KEY_Shift_R WL_KEYBOARD_KEY_STATE_PRESSED =
      .ok (⟨0, 5, 1, 6, 2, state_compose, ⟨⟨XKB_KEY_quotedbl, 0, 0, 0⟩, []⟩⟩, []) :=
  ⟨rfl, Or.inr rfl,
   C5_shift_while_composing ascii_utf8
     ⟨0, 5, 1, 6, 2, state_compose, ⟨⟨XKB_KEY_quotedbl, 0, 0, 0⟩, []⟩⟩ rfl 9 101 54
     XKB_KEY_Shift_R (Or.inr rfl)⟩

/-- C6 as stated fails: after activate, Multi_key and quotedbl (released),
deactivate leaves the compose state Composing and the stored sequence
holding quotedbl; after the next activate the compose state is Normal but
slot 0 of the stored sequence still holds quotedbl. -/
theorem C6_deactivate_counterexample :
    run ascii_utf8 (simple_im_init 1 2)
        [Event.activate 5 6, released 9 100 30 XKB_KEY_Multi_key,
         released 9 101 31 XKB_KEY_quotedbl, Event.deactivate] =
      .ok (⟨0, 0, 1, 6, 2, state_compose, ⟨⟨XKB_KEY_quotedbl, 0, 0, 0⟩, []⟩⟩,
           [Call.input_method_context_add_listener 5,
            Call.input_method_context_grab_keyboard 5,
            Call.wl_keyboard_add_listener 6,
            Call.input_method_context_preedit_string 5 [0x22] 1,
            Call.input_method_context_destroy 5]) ∧
    run ascii_utf8 (simple_im_init 1 2)
        [Event.activate 5 6, released 9 100 30 XKB_KEY_Multi_key,
         released 9 101 31 XKB_KEY_quotedbl, Event.deactivate, Event.activate 7 8] =
      .ok (⟨0, 7, 1, 8, 2, state_normal, ⟨⟨XKB_KEY_quotedbl, 0, 0, 0⟩, []⟩⟩,
           [Call.input_method_context_add_listener 5,
            Call.input_method_context_grab_keyboard 5,
            Call.wl_keyboard_add_listener 6,
            Call.input_method_context_preedit_string 5 [0x22] 1,
            Call.input_method_context_destroy 5,
            Call.input_method_context_add_listener 7,
            Call.input_method_context_grab_keyboard 7,
            Call.wl_keyboard_add_listener 8]) ∧
    state_compose ≠ state_normal ∧
    (⟨XKB_KEY_quotedbl, 0, 0, 0⟩ : keys4) ≠ ⟨0, 0, 0, 0⟩ := by
  decide

/-- C6, amended. The session reached by activate, Multi_key and quotedbl
(released) is composing and holds quotedbl. From it, deactivate makes one
call, the destroy of the context (no commit and no pre-edit call), and sets
the context to NULL; compose state and stored sequence stay as they were. A
following activate sets the compose state to Normal and does not touch the
stored sequence, which still holds quotedbl. The stored sequence is zeroed
by the next released Multi_key, which starts the next compose run. -/
theorem C6_deactivate_mid_compose (utf8 : Nat → List Nat) (hwf : utf8_wf utf8)
    (hq : utf8 XKB_KEY_quotedbl ≠ []) (s0 : simple_im) (context grab : Nat)
    (hctx : context ≠ 0) (serial1 time1 key1 serial2 time2 key2 : Nat)
    (context2 grab2 serial3 time3 key3 : Nat) :
    run utf8 s0
        [Event.activate context grab, released serial1 time1 key1 XKB_KEY_Multi_key,
         released serial2 time2 key2 XKB_KEY_quotedbl] =
      .ok (mid_compose s0 context grab,
           (if s0.context ≠ 0 then [Call.input_method_context_destroy s0.context] else []) ++
           [Call.input_method_context_add_listener context,
            Call.input_method_context_grab_keyboard context,
            Call.wl_keyboard_add_listener grab,
            Call.input_method_context_preedit_string context
              (utf8 XKB_KEY_quotedbl) (utf8 XKB_KEY_quotedbl).length]) ∧
    input_method_deactivate (mid_compose s0 context grab) =
      (mid_compose s0 0 grab, [Call.input_method_context_destroy context]) ∧
    input_method_activate (mid_compose s0 0 grab) context2 grab2 =
      ({ mid_compose s0 context2 grab2 with compose_state := state_normal },
       [Call.input_method_context_add_listener context2,
        Call.input_method_context_grab_keyboard context2,
        Call.wl_keyboard_add_listener grab2]) ∧
    simple_im_key_handler utf8 serial3
        { mid_compose s0 context2 grab2 with compose_state := state_normal }
        time3 key3 XKB_KEY_Multi_key WL_KEYBOARD_KEY_STATE_RELEASED =
      .ok ({ mid_compose s0 context2 grab2 with compose_seq := ⟨⟨0, 0, 0, 0⟩, []⟩ }, []) := by
  refine ⟨?_, ?_, ?_, ?_⟩
  · have hm := key_handler_multi_key utf8 serial1
      (input_method_activate s0 context grab).1 time1 key1 rfl
    have hf := key_handler_first_key utf8 hwf ⟨⟨XKB_KEY_quotedbl, XKB_KEY_A, 0, 0⟩, [0xC3, 0x84]⟩
      (by decide) hq (input_method_activate s0 context grab).1 serial2 time2 key2
    simp only [run, step, released, hm, hf]
    simp [input_method_activate, mid_compose]
  · simp [input_method_deactivate, mid_compose, hctx]
  · simp [input_method_activate, mid_compose]
  · exact key_handler_multi_key utf8 serial3 _ time3 key3 rfl

/-- C6 amended, at the ASCII texts, the initial session and contexts 5, 7. -/
theorem C6_deactivate_mid_compose_witness :
    utf8_wf ascii_utf8 ∧ ascii_utf8 XKB_KEY_quotedbl ≠ [] ∧ (5 : Nat) ≠ 0 ∧
    input_method_deactivate (mid_compose (simple_im_init 1 2) 5 6) =
      (⟨0, 0, 1, 6, 2, state_compose, ⟨⟨XKB_KEY_quotedbl, 0, 0, 0⟩, []⟩⟩,
       [Call.input_method_context_destroy 5]) ∧
    input_method_activate (mid_compose (simple_im_init 1 2) 0 6) 7 8 =
      (⟨0, 7, 1, 8, 2, state_normal, ⟨⟨XKB_KEY_quotedbl, 0, 0, 0⟩, []⟩⟩,
       [Call.input_method_context_add_listener 7,
        Call.input_method_context_grab_keyboard 7,
        Call.wl_keyboard_add_listener 8]) :=
  ⟨utf8_wf_ascii, by decide, by decide,
   (C6_deactivate_mid_compose ascii_utf8 utf8_wf_ascii (by decide) (simple_im_init 1 2) 5 6
      (by decide) 9 100 30 9 101 31 7 8 9 102 32).2.1,
   (C6_deactivate_mid_compose ascii_utf8 utf8_wf_ascii (by decide) (simple_im_init 1 2) 5 6
      (by decide) 9 100 30 9 101 31 7 8 9 102 32).2.2.1⟩

/-- C7, evaluated where it fails: after activate and deactivate the context
is NULL, and a released key with text (here a) still makes a commit-string
call, on the NULL context; a key without text (here Shift_L) makes a
forward-key call on the NULL context. -/
theorem C7_stray_key_calls_on_null_context :
    run ascii_utf8 (simple_im_init 1 2)
        [Event.activate 5 6, Event.deactivate, released 9 100 30 XKB_KEY_a,
         pressed 9 101 42 XKB_KEY_Shift_L] =
      .ok (⟨0, 0, 1, 6, 2, state_normal, ⟨⟨0, 0, 0, 0⟩, []⟩⟩,
           [Call.input_method_context_add_listener 5,
            Call.input_method_context_grab_keyboard 5,
            Call.wl_keyboard_add_listener 6,
            Call.input_method_context_destroy 5,
            Call.input_method_context_commit_string 0 [0x61] 1,
            Call.input_method_context_key 0 9 101 42 WL_KEYBOARD_KEY_STATE_PRESSED]) := by
  decide

/-- C8, evaluated where it fails: for the inbound modifiers (serial 10,
depressed 1, latched 2, locked 4, group 0) the call on the context carries
depressed 1, latched 1, locked 2, group 0, while the call on the keyboard
input helper carries the inbound values. -/
theorem C8_modifiers_arguments_shifted :
    input_method_keyboard_modifiers
        (input_method_activate (simple_im_init 1 2) 5 6).1 10 1 2 4 0 =
      ((input_method_activate (simple_im_init 1 2) 5 6).1,
       [Call.keyboard_input_handle_modifiers 2 10 1 2 4 0,
        Call.input_method_context_modifiers 5 10 1 1 2 0]) := by
  decide

/-- C9. The table has 11 entries; each has two non-zero keys followed by a
zero slot; for all indices `i < j` the comparator is negative on (entry i,
entry j) and positive on (entry j, entry i); hence no two entries have the
same keys and none is an initial segment of another. -/
theorem C9_table_sorted :
    compose_seqs.length = 11 ∧
    (∀ e ∈ compose_seqs, e.keys.k0 ≠ 0 ∧ e.keys.k1 ≠ 0 ∧ e.keys.k2 = 0) ∧
    (∀ i j : Fin compose_seqs.length, i < j →
      is_negative (compare_compose_keys (compose_seqs.get i) (compose_seqs.get j)) = true ∧
      is_positive (compare_compose_keys (compose_seqs.get j) (compose_seqs.get i)) = true) ∧
    compose_seqs.Pairwise (fun a b =>
      typed_keys a ≠ typed_keys b ∧ ¬ (typed_keys a <+: typed_keys b) ∧
      ¬ (typed_keys b <+: typed_keys a)) := by
  refine ⟨by decide, by decide, by decide, by decide⟩

/-- C10. In Normal compose state, for every key event other than a released
Multi_key, the session state is unchanged and the calls are: one
forward-key call with the time, hardware key and action of the event (and
the serial of the display) when the sym has no text, for either action; none
when the sym has text and
the key is pressed; one commit-string call carrying the text of the sym when
it has text and the key is released. -/
theorem C10_normal_state_decisions (utf8 : Nat → List Nat) (hwf : utf8_wf utf8)
    (s : simple_im) (hn : s.compose_state = state_normal)
    (serial time key sym : Nat) (state : wl_keyboard_key_state)
    (hev : ¬ (sym = XKB_KEY_Multi_key ∧ state = WL_KEYBOARD_KEY_STATE_RELEASED)) :
    simple_im_key_handler utf8 serial s time key sym state =
      .ok (s,
        if utf8 sym = [] then [Call.input_method_context_key s.context serial time key state]
        else if state = WL_KEYBOARD_KEY_STATE_PRESSED then []
        else [Call.input_method_context_commit_string s.context (utf8 sym) (utf8 sym).length]) := by
  have h1 : ¬ (sym = XKB_KEY_Multi_key ∧ state = WL_KEYBOARD_KEY_STATE_RELEASED ∧
      s.compose_state = state_normal) := fun h => hev ⟨h.1, h.2.1⟩
  unfold simple_im_key_handler
  simp only
  rw [if_neg h1, if_neg (by rw [hn]; decide)]
  by_cases ht : utf8 sym = []
  · simp [xkb_keysym_to_utf8, ht]
  · obtain ⟨rest, hx⟩ := xkb_keysym_to_utf8_head utf8 hwf sym ht
    rw [hx]
    have hpos : ¬ (((utf8 sym).length + 1 : Nat) : Int) ≤ 0 := by omega
    simp only [hpos, if_false, ht, cstring_terminated _ _ (hwf sym).2]
    by_cases hp : state = WL_KEYBOARD_KEY_STATE_PRESSED
    · simp [hp]
    · simp [hp]

/-- C10, at a released a in the activated initial session: the text of a is
committed. -/
theorem C10_normal_state_decisions_witness :
    utf8_wf ascii_utf8 ∧
    (input_method_activate (simple_im_init 1 2) 5 6).1.compose_state = state_normal ∧
    ¬ (XKB_KEY_a = XKB_KEY_Multi_key ∧
        WL_KEYBOARD_KEY_STATE_RELEASED = WL_KEYBOARD_KEY_STATE_RELEASED) ∧
    simple_im_key_handler ascii_utf8 9 (input_method_activate (simple_im_init 1 2) 5 6).1
        100 30 XKB_KEY_a WL_KEYBOARD_KEY_STATE_RELEASED =
      .ok ((input_method_activate (simple_im_init 1 2) 5 6).1,
           [Call.input_method_context_commit_string 5 [0x61] 1]) :=
  ⟨utf8_wf_ascii, rfl, by decide,
   C10_normal_state_decisions ascii_utf8 utf8_wf_ascii
     (input_method_activate (simple_im_init 1 2) 5 6).1 rfl 9 100 30 XKB_KEY_a
     WL_KEYBOARD_KEY_STATE_RELEASED (by decide)⟩

/-! ## Lemmas for the remaining claims -/

theorem utf8_plain_ascii : utf8_plain ascii_utf8 := by
  unfold utf8_plain
  decide

/-- A lone key that starts no table entry is not found. -/
theorem bsearch_unmapped (k1 : Nat) (t : List Nat) (h0 : k1 ≠ 0) (hb : k1 < 2 ^ 32)
    (hun : ∀ e ∈ compose_seqs, e.keys.k0 ≠ k1) :
    bsearch ⟨⟨k1, 0, 0, 0⟩, t⟩ compose_seqs = .ok none := by
  obtain ⟨r, hr⟩ := bsearch_total ⟨⟨k1, 0, 0, 0⟩, t⟩
  cases r with
  | none => exact hr
  | some e =>
    exfalso
    obtain ⟨hm, hc⟩ := bsearch_loop_sound _ _ _ _ _ _ hr
    have hkey : ∀ x ∈ (⟨⟨k1, 0, 0, 0⟩, t⟩ : compose_seq).keys.slots, x < 2 ^ 32 := by
      intro x hx
      simp [keys4.slots] at hx
      rcases hx with rfl | rfl <;> first | assumption | decide
    have hp := (compare_zero_iff _ _ rfl hkey (compose_seqs_bound _ hm)).1 hc
    rw [typed_keys_two k1 0 t h0, compose_seqs_typed e hm] at hp
    simp [List.cons_prefix_cons] at hp
    exact hun e hm hp.symm

/-- A released key that starts no table entry, at the start of a compose run:
the pre-edit is cleared, the text of the key is committed, the run ends. -/
theorem key_handler_unmapped_first (utf8 : Nat → List Nat) (hwf : utf8_wf utf8)
    (k1 : Nat) (h0 : k1 ≠ 0) (hb : k1 < 2 ^ 32) (hi : k1 ∉ ignore_keys_on_compose)
    (ht : utf8 k1 ≠ []) (hun : ∀ e ∈ compose_seqs, e.keys.k0 ≠ k1)
    (s : simple_im) (serial time key : Nat) :
    simple_im_key_handler utf8 serial
        { s with compose_state := state_compose, compose_seq := ⟨⟨0, 0, 0, 0⟩, []⟩ }
        time key k1 WL_KEYBOARD_KEY_STATE_RELEASED =
      .ok ({ s with compose_state := state_normal, compose_seq := ⟨⟨k1, 0, 0, 0⟩, []⟩ },
           [Call.input_method_context_preedit_string s.context [] 0,
            Call.input_method_context_commit_string s.context (utf8 k1) (utf8 k1).length]) := by
  obtain ⟨rest, hx⟩ := xkb_keysym_to_utf8_head utf8 hwf k1 ht
  simp only [simple_im_key_handler, reduceCtorEq, and_false, if_false, hi, if_true,
    keys4.slots, first_zero, keys4.write, ne_eq, not_true_eq_false,
    bsearch_unmapped k1 [] h0 hb hun, utf8_loop, keys4.read]
  norm_num [hx, cstring_terminated _ _ (hwf k1).2]

/-- A released key with text in Normal compose state, other than Multi_key:
its text is committed. -/
theorem key_handler_normal_text (utf8 : Nat → List Nat) (hwf : utf8_wf utf8)
    (s : simple_im) (hn : s.compose_state = state_normal) (serial time key sym : Nat)
    (hm : sym ≠ XKB_KEY_Multi_key) (ht : utf8 sym ≠ []) :
    simple_im_key_handler utf8 serial s time key sym WL_KEYBOARD_KEY_STATE_RELEASED =
      .ok (s, [Call.input_method_context_commit_string s.context (utf8 sym)
                 (utf8 sym).length]) := by
  obtain ⟨rest, hx⟩ := xkb_keysym_to_utf8_head utf8 hwf sym ht
  have hpos : ¬ (((utf8 sym).length + 1 : Nat) : Int) ≤ 0 := by omega
  unfold simple_im_key_handler
  simp only
  rw [if_neg (fun h => hm h.1), if_neg (by rw [hn]; decide), hx]
  simp only [hpos, if_false, reduceCtorEq, cstring_terminated _ _ (hwf sym).2]

/-- A step from Normal to Composing is a released Multi_key. -/
theorem step_enters_compose (utf8 : Nat → List Nat) (s s1 : simple_im) (ev : Event)
    (calls : List Call) (hn : s.compose_state = state_normal)
    (hstep : step utf8 s ev = .ok (s1, calls)) (hc : s1.compose_state = state_compose) :
    s1.compose_seq = ⟨⟨0, 0, 0, 0⟩, []⟩ ∧ calls = [] := by
  cases ev with
  | key serial time key sym state =>
    simp only [step, simple_im_key_handler] at hstep
    split at hstep
    · simp only [Except.ok.injEq, Prod.mk.injEq] at hstep
      obtain ⟨h1, h2⟩ := hstep
      subst h1
      exact ⟨rfl, h2.symm⟩
    · rw [if_neg (by rw [hn]; decide)] at hstep
      split at hstep
      · simp at hstep
      · split at hstep
        · simp only [Except.ok.injEq, Prod.mk.injEq] at hstep
          rw [← hstep.1, hn] at hc
          exact absurd hc (by decide)
        · split at hstep
          · simp only [Except.ok.injEq, Prod.mk.injEq] at hstep
            rw [← hstep.1, hn] at hc
            exact absurd hc (by decide)
          · split at hstep
            · simp only [Except.ok.injEq, Prod.mk.injEq] at hstep
              rw [← hstep.1, hn] at hc
              exact absurd hc (by decide)
            · simp only [Except.ok.injEq, Prod.mk.injEq] at hstep
              rw [← hstep.1, hn] at hc
              exact absurd hc (by decide)
  | modifiers serial d l k g =>
    simp only [step, input_method_keyboard_modifiers, Except.ok.injEq, Prod.mk.injEq] at hstep
    rw [← hstep.1, hn] at hc
    exact absurd hc (by decide)
  | reset =>
    simp only [step, input_method_context_reset, Except.ok.injEq, Prod.mk.injEq] at hstep
    rw [← hstep.1] at hc
    simp at hc
  | activate context grab =>
    simp only [step, input_method_activate, Except.ok.injEq, Prod.mk.injEq] at hstep
    rw [← hstep.1] at hc
    simp at hc
  | deactivate =>
    simp only [step, input_method_deactivate] at hstep
    split at hstep
    · simp only [Except.ok.injEq, Prod.mk.injEq] at hstep
      rw [← hstep.1, hn] at hc
      exact absurd hc (by decide)
    · simp only [Except.ok.injEq, Prod.mk.injEq] at hstep
      rw [← hstep.1] at hc
      simp only at hc
      rw [hn] at hc
      exact absurd hc (by decide)

theorem key_diff_neg_iff {a b : Nat} (ha : a < 2 ^ 31) (hb : b < 2 ^ 31) :
    key_diff a b < 0 ↔ a < b := by
  unfold key_diff
  simp only
  split <;> omega

theorem key_diff_pos_iff {a b : Nat} (ha : a < 2 ^ 31) (hb : b < 2 ^ 31) :
    0 < key_diff a b ↔ b < a := by
  unfold key_diff
  simp only
  split <;> omega

/-- The comparator at the first slot where the sequences differ, after a
common run `p` of non-zero keys. -/
theorem compare_slots_first_difference (p : List Nat) (x y : Nat) (ra rb : List Nat)
    (hp : ∀ k ∈ p, k ≠ 0) (hxy : x ≠ y) :
    compare_slots (p ++ x :: ra) (p ++ y :: rb) =
      .ok (if x = 0 then 0 else key_diff x y) := by
  induction p with
  | nil =>
    simp only [List.nil_append, compare_slots]
    by_cases hx : x = 0
    · simp [hx]
    · by_cases hy : y = 0
      · simp [hx, hy, hxy]
      · simp [hx, hy, hxy]
  | cons k p ih =>
    have hk : k ≠ 0 := hp k (by simp)
    simp only [List.cons_append, compare_slots, ne_eq, hk, not_false_eq_true, and_self, if_true,
      not_true_eq_false, if_false]
    exact ih (fun k hk => hp k (by simp [hk]))

/-- When the second sequence stops strictly inside the first, whose keys are
below `2 ^ 31`, the comparator is positive. -/
theorem compare_slots_strict (as bs : List Nat) (hlen : as.length = bs.length)
    (ha : ∀ x ∈ as, x < 2 ^ 31)
    (hpre : bs.takeWhile (fun k => k ≠ 0) <+: as.takeWhile (fun k => k ≠ 0))
    (hne : bs.takeWhile (fun k => k ≠ 0) ≠ as.takeWhile (fun k => k ≠ 0)) :
    is_positive (compare_slots as bs) = true := by
  induction as generalizing bs with
  | nil =>
    cases bs with
    | nil => simp at hne
    | cons b bs => simp at hlen
  | cons a as ih =>
    cases bs with
    | nil => simp at hlen
    | cons b bs =>
      have ha0 : a < 2 ^ 31 := ha a (by simp)
      by_cases hb : b = 0
      · subst hb
        have hane : a ≠ 0 := by
          intro h
          subst h
          simp at hne
        have hd := (key_diff_pos_iff ha0 (by decide : 0 < 2 ^ 31)).2 (by omega)
        simp [compare_slots, hane, is_positive, hd]
      · have hane : a ≠ 0 := by
          intro h
          subst h
          simp [List.takeWhile_cons, hb] at hpre
        simp only [List.takeWhile_cons, ne_eq, hb, not_false_eq_true, decide_True, if_true, hane,
          List.cons_prefix_cons] at hpre hne
        obtain ⟨hab, hpre⟩ := hpre
        subst hab
        simp only [compare_slots, ne_eq, hb, not_false_eq_true, and_self, if_true,
          not_true_eq_false, if_false]
        exact ih bs (by simpa using hlen) (fun x hx => ha x (by simp [hx])) hpre
          (fun h => hne (by rw [h]))

theorem key_diff_range (a b : Nat) :
    (key_diff a b - ((a : Int) - (b : Int))) % 4294967296 = 0 ∧
    -2147483648 ≤ key_diff a b ∧ key_diff a b < 2147483648 := by
  unfold key_diff
  simp only
  split <;> omega

/-- The key handler keeps the context and destroys nothing. -/
theorem key_handler_keeps_context (utf8 : Nat → List Nat) (serial : Nat) (s s1 : simple_im)
    (time key sym : Nat) (state : wl_keyboard_key_state) (calls : List Call)
    (h : simple_im_key_handler utf8 serial s time key sym state = .ok (s1, calls)) :
    s1.context = s.context ∧ ∀ c, Call.input_method_context_destroy c ∉ calls := by
  unfold simple_im_key_handler at h
  simp only at h
  repeat' split at h
  all_goals
    first
    | (simp only [Except.ok.injEq, Prod.mk.injEq] at h
       obtain ⟨h1, h2⟩ := h
       subst h1
       subst h2
       exact ⟨rfl, by simp⟩)
    | (simp at h)

/-- One handled event keeps the live contexts in step with the context field. -/
theorem track_live_step (utf8 : Nat → List Nat) (s s1 : simple_im) (ev : Event)
    (calls : List Call) (live : List Nat)
    (hl : live = if s.context = 0 then [] else [s.context])
    (hf : match ev with
      | .activate context _ => context ≠ 0 ∧ context ≠ s.context
      | _ => True)
    (hstep : step utf8 s ev = .ok (s1, calls)) :
    track_live live ev calls = if s1.context = 0 then [] else [s1.context] := by
  cases ev with
  | key serial time key sym state =>
    obtain ⟨hc, hd⟩ := key_handler_keeps_context utf8 serial s s1 time key sym state calls hstep
    simp only [track_live, hd, not_false_eq_true, decide_True, List.filter_true, hc, hl]
  | modifiers serial d l k g =>
    simp only [step, input_method_keyboard_modifiers, Except.ok.injEq, Prod.mk.injEq] at hstep
    obtain ⟨h1, h2⟩ := hstep
    subst h1
    subst h2
    simp [track_live, hl]
  | reset =>
    simp only [step, input_method_context_reset, Except.ok.injEq, Prod.mk.injEq] at hstep
    obtain ⟨h1, h2⟩ := hstep
    subst h1
    subst h2
    simp [track_live, hl]
  | activate context grab =>
    simp only [step, input_method_activate, Except.ok.injEq, Prod.mk.injEq] at hstep
    obtain ⟨h1, h2⟩ := hstep
    subst h1
    subst h2
    obtain ⟨hc0, hcs⟩ := hf
    by_cases h0 : s.context = 0
    · simp [track_live, hl, h0, hc0]
    · have hne : ¬ s.context = context := fun h => hcs h.symm
      simp [track_live, hl, h0, hc0, List.insert, hcs, hne, List.filter_cons]
  | deactivate =>
    simp only [step, input_method_deactivate] at hstep
    split at hstep
    · rename_i h0
      simp only [Except.ok.injEq, Prod.mk.injEq] at hstep
      obtain ⟨h1, h2⟩ := hstep
      subst h1
      subst h2
      simp [track_live, hl, h0]
    · rename_i h0
      simp only [Except.ok.injEq, Prod.mk.injEq] at hstep
      obtain ⟨h1, h2⟩ := hstep
      subst h1
      subst h2
      simp [track_live, hl, h0]

theorem run_live_one_context (utf8 : Nat → List Nat) (hwf : utf8_wf utf8)
    (evs : List Event) (s : simple_im)
    (live : List Nat) (hl : live = if s.context = 0 then [] else [s.context])
    (hk : compose_keys_ok s) (hf : fresh_contexts utf8 s evs = true) :
    one_live_context (run_live utf8 s live evs) := by
  induction evs generalizing s live with
  | nil => exact hl
  | cons ev evs ih =>
    simp only [fresh_contexts, Bool.and_eq_true] at hf
    obtain ⟨hf1, hf2⟩ := hf
    obtain ⟨s1, calls, hstep, hk1⟩ := ends_in_ok _ _ (step_total utf8 hwf s ev hk)
    rw [hstep] at hf2
    simp only [run_live, hstep]
    refine ih s1 _ (track_live_step utf8 s s1 ev calls live hl ?_ hstep) hk1 hf2
    cases ev <;> simp_all

/-! ## The claims, continued -/

/-- C11. For keysyms `k1`, `k2` that both have text, `k1` starting no table
entry: from a state in Normal compose state the released Multi_key, `k1`,
`k2` make, in order, a pre-edit-string call with the empty string, a
commit-string call carrying the text of `k1` and a commit-string call
carrying the text of `k2`; so the committed texts in emission order are the
text of `k1` followed by the text of `k2`, no pre-edit call carries text,
and the compose state ends Normal. NoSymbol, Multi_key and the Shift keys
have no text. -/
theorem C11_unmapped_first_key (utf8 : Nat → List Nat) (hwf : utf8_wf utf8)
    (hplain : utf8_plain utf8) (k1 k2 : Nat) (hb1 : k1 < 2 ^ 32)
    (ht1 : utf8 k1 ≠ []) (ht2 : utf8 k2 ≠ [])
    (hun : ∀ e ∈ compose_seqs, e.keys.k0 ≠ k1)
    (s : simple_im) (hn : s.compose_state = state_normal)
    (serial1 time1 key1 serial2 time2 key2 serial3 time3 key3 : Nat) :
    run utf8 s
        [released serial1 time1 key1 XKB_KEY_Multi_key, released serial2 time2 key2 k1,
         released serial3 time3 key3 k2] =
      .ok ({ s with compose_state := state_normal, compose_seq := ⟨⟨k1, 0, 0, 0⟩, []⟩ },
           [Call.input_method_context_preedit_string s.context [] 0,
            Call.input_method_context_commit_string s.context (utf8 k1) (utf8 k1).length,
            Call.input_method_context_commit_string s.context (utf8 k2) (utf8 k2).length]) := by
  obtain ⟨hp0, hpm, hpl, hpr⟩ := hplain
  have h0 : k1 ≠ 0 := fun h => ht1 (h ▸ hp0)
  have hi : k1 ∉ ignore_keys_on_compose := by
    intro h
    simp only [ignore_keys_on_compose, List.mem_cons, List.mem_singleton, List.not_mem_nil,
      or_false] at h
    rcases h with h | h
    · exact ht1 (h ▸ hpl)
    · exact ht1 (h ▸ hpr)
  have hm2 : k2 ≠ XKB_KEY_Multi_key := fun h => ht2 (h ▸ hpm)
  have e1 := key_handler_multi_key utf8 serial1 s time1 key1 hn
  have e2 := key_handler_unmapped_first utf8 hwf k1 h0 hb1 hi ht1 hun s serial2 time2 key2
  have e3 := key_handler_normal_text utf8 hwf
    { s with compose_state := state_normal, compose_seq := ⟨⟨k1, 0, 0, 0⟩, []⟩ } rfl
    serial3 time3 key3 k2 hm2 ht2
  simp only [run, step, released, e1, e2, e3, List.nil_append, List.cons_append, List.append_nil]

/-- C11, at Multi_key, z, x with the ASCII texts: "z" then "x" are committed. -/
theorem C11_unmapped_first_key_witness :
    utf8_wf ascii_utf8 ∧ utf8_plain ascii_utf8 ∧ (0x7a : Nat) < 2 ^ 32 ∧
    ascii_utf8 0x7a ≠ [] ∧ ascii_utf8 0x78 ≠ [] ∧
    (∀ e ∈ compose_seqs, e.keys.k0 ≠ 0x7a) ∧
    run ascii_utf8 (input_method_activate (simple_im_init 1 2) 5 6).1
        [released 9 100 30 XKB_KEY_Multi_key, released 9 101 31 0x7a,
         released 9 102 32 0x78] =
      .ok (⟨0, 5, 1, 6, 2, state_normal, ⟨⟨0x7a, 0, 0, 0⟩, []⟩⟩,
           [Call.input_method_context_preedit_string 5 [] 0,
            Call.input_method_context_commit_string 5 [0x7a] 1,
            Call.input_method_context_commit_string 5 [0x78] 1]) :=
  ⟨utf8_wf_ascii, utf8_plain_ascii, by decide, by decide, by decide, by decide,
   C11_unmapped_first_key ascii_utf8 utf8_wf_ascii utf8_plain_ascii 0x7a 0x78 (by decide)
     (by decide) (by decide) (by decide) (input_method_activate (simple_im_init 1 2) 5 6).1 rfl
     9 100 30 9 101 31 9 102 32⟩

/-- C12. For every state, `input_method_context_reset` sets the compose state
to Normal, makes no call and leaves every other field, the context among
them, as it was; applied twice it gives what it gives applied once; applied
in Normal compose state it leaves the whole state as it was. -/
theorem C12_reset_idempotent (s : simple_im) :
    input_method_context_reset s = ({ s with compose_state := state_normal }, []) ∧
    (input_method_context_reset s).1.context = s.context ∧
    input_method_context_reset (input_method_context_reset s).1 = input_method_context_reset s ∧
    (s.compose_state = state_normal → input_method_context_reset s = (s, [])) := by
  refine ⟨rfl, rfl, rfl, ?_⟩
  intro h
  obtain ⟨a, b, c, d, e, f, g⟩ := s
  simp only at h
  subst h
  rfl

/-- C13. Over every sequence of events from the initial session whose
activate events each hand over a context object that is not NULL and not the
one held at that moment, the run ends in a state, never in a fault, and the
contexts handed to `input_method_activate` and not yet destroyed are none
when the context field is NULL and the context field alone otherwise.
`input_method_activate` first destroys the context it holds, if any, then
installs the new one, and sets the compose state to Normal;
`input_method_deactivate` without a context changes nothing and makes no
call. Keysym texts have at most 6 bytes, none of them NUL. -/
theorem C13_one_live_context (utf8 : Nat → List Nat) (hwf : utf8_wf utf8)
    (display keyboard_input : Nat) (evs : List Event)
    (hfresh : fresh_contexts utf8 (simple_im_init display keyboard_input) evs = true) :
    (∃ s live,
      run_live utf8 (simple_im_init display keyboard_input) [] evs = .ok (s, live) ∧
      live = if s.context = 0 then [] else [s.context]) ∧
    (∀ (s : simple_im) (context grab : Nat),
      input_method_activate s context grab =
        ({ s with compose_state := state_normal, context := context, keyboard := grab },
         (if s.context ≠ 0 then [Call.input_method_context_destroy s.context] else []) ++
           [Call.input_method_context_add_listener context,
            Call.input_method_context_grab_keyboard context,
            Call.wl_keyboard_add_listener grab])) ∧
    (∀ s : simple_im, s.context = 0 → input_method_deactivate s = (s, [])) := by
  refine ⟨?_, fun s context grab => rfl, ?_⟩
  · have h := run_live_one_context utf8 hwf evs _ [] (by simp [simple_im_init])
      (by simp [compose_keys_ok, simple_im_init]) hfresh
    generalize run_live utf8 (simple_im_init display keyboard_input) [] evs = r at h
    match r, h with
    | .ok (s, live), h => exact ⟨s, live, rfl, h⟩
  · intro s h0
    simp [input_method_deactivate, h0]

/-- C13, on a sequence with a compose run of a key without text (Multi_key
after Multi_key), two activations in a row, a double deactivate and a
context address used again after its destroy. -/
theorem C13_one_live_context_witness :
    utf8_wf ascii_utf8 ∧
    fresh_contexts ascii_utf8 (simple_im_init 1 2)
        [Event.activate 5 6, released 9 100 30 XKB_KEY_Multi_key,
         released 9 101 30 XKB_KEY_Multi_key, released 9 102 30 XKB_KEY_a,
         Event.activate 7 8, Event.reset, Event.deactivate, Event.deactivate,
         Event.activate 5 6] = true ∧
    run_live ascii_utf8 (simple_im_init 1 2) []
        [Event.activate 5 6, released 9 100 30 XKB_KEY_Multi_key,
         released 9 101 30 XKB_KEY_Multi_key, released 9 102 30 XKB_KEY_a,
         Event.activate 7 8] =
      .ok (⟨0, 7, 1, 8, 2, state_normal, ⟨⟨XKB_KEY_Multi_key, 0, 0, 0⟩, []⟩⟩, [7]) ∧
    ∃ s live,
      run_live ascii_utf8 (simple_im_init 1 2) []
        [Event.activate 5 6, released 9 100 30 XKB_KEY_Multi_key,
         released 9 101 30 XKB_KEY_Multi_key, released 9 102 30 XKB_KEY_a,
         Event.activate 7 8, Event.reset, Event.deactivate, Event.deactivate,
         Event.activate 5 6] = .ok (s, live) ∧
      live = if s.context = 0 then [] else [s.context] :=
  ⟨utf8_wf_ascii, by decide, by decide,
   (C13_one_live_context ascii_utf8 utf8_wf_ascii 1 2
      [Event.activate 5 6, released 9 100 30 XKB_KEY_Multi_key,
       released 9 101 30 XKB_KEY_Multi_key, released 9 102 30 XKB_KEY_a,
       Event.activate 7 8, Event.reset, Event.deactivate, Event.deactivate,
       Event.activate 5 6] (by decide)).1⟩

/-- C14. While composing, a pressed key makes no call and leaves the whole
session state, compose state and stored sequence included, as it was; this
holds for every sym, Shift_L and Shift_R included. -/
theorem C14_pressed_while_composing (utf8 : Nat → List Nat) (s : simple_im)
    (hc : s.compose_state = state_compose) (serial time key sym : Nat) :
    simple_im_key_handler utf8 serial s time key sym WL_KEYBOARD_KEY_STATE_PRESSED =
      .ok (s, []) := by
  simp [simple_im_key_handler, hc]

/-- C14, at a pressed A in a compose run that holds quotedbl. -/
theorem C14_pressed_while_composing_witness :
    (⟨0, 5, 1, 6, 2, state_compose, ⟨⟨XKB_KEY_quotedbl, 0, 0, 0⟩, []⟩⟩ : simple_im).compose_state
      = state_compose ∧
    simple_im_key_handler ascii_utf8 9
        ⟨0, 5, 1, 6, 2, state_compose, ⟨⟨XKB_KEY_quotedbl, 0, 0, 0⟩, []⟩⟩
        100 30 XKB_KEY_A WL_KEYBOARD_KEY_STATE_PRESSED =
      .ok (⟨0, 5, 1, 6, 2, state_compose, ⟨⟨XKB_KEY_quotedbl, 0, 0, 0⟩, []⟩⟩, []) :=
  ⟨rfl,
   C14_pressed_while_composing ascii_utf8
     ⟨0, 5, 1, 6, 2, state_compose, ⟨⟨XKB_KEY_quotedbl, 0, 0, 0⟩, []⟩⟩ rfl 9 100 30 XKB_KEY_A⟩

/-- C15. In every state in Normal compose state, a released Multi_key switches
to Composing, zeroes the four slots of the stored sequence and makes no
call; and whatever event takes the session from Normal to Composing, the
stored sequence is empty and no call was made. This holds for every Normal
state, so for each one reached by a sequence of events from the initial
session, whatever the stored sequence held before. -/
theorem C15_compose_run_starts_empty (utf8 : Nat → List Nat) (s : simple_im)
    (hn : s.compose_state = state_normal) :
    (∀ serial time key : Nat,
      simple_im_key_handler utf8 serial s time key XKB_KEY_Multi_key
          WL_KEYBOARD_KEY_STATE_RELEASED =
        .ok ({ s with compose_state := state_compose,
                      compose_seq := ⟨⟨0, 0, 0, 0⟩, []⟩ }, [])) ∧
    (∀ (ev : Event) (s1 : simple_im) (calls : List Call),
      step utf8 s ev = .ok (s1, calls) → s1.compose_state = state_compose →
        s1.compose_seq = ⟨⟨0, 0, 0, 0⟩, []⟩ ∧ calls = []) :=
  ⟨fun serial time key => key_handler_multi_key utf8 serial s time key hn,
   fun ev s1 calls hstep hc => step_enters_compose utf8 s s1 ev calls hn hstep hc⟩

/-- C15, after a compose run cut short by reset: the session is Normal and
still holds quotedbl; the next released Multi_key zeroes the sequence. -/
theorem C15_compose_run_starts_empty_witness :
    run ascii_utf8 (simple_im_init 1 2)
        [Event.activate 5 6, released 9 100 30 XKB_KEY_Multi_key,
         released 9 101 31 XKB_KEY_quotedbl, Event.reset] =
      .ok (⟨0, 5, 1, 6, 2, state_normal, ⟨⟨XKB_KEY_quotedbl, 0, 0, 0⟩, []⟩⟩,
           [Call.input_method_context_add_listener 5,
            Call.input_method_context_grab_keyboard 5,
            Call.wl_keyboard_add_listener 6,
            Call.input_method_context_preedit_string 5 [0x22] 1]) ∧
    simple_im_key_handler ascii_utf8 9
        ⟨0, 5, 1, 6, 2, state_normal, ⟨⟨XKB_KEY_quotedbl, 0, 0, 0⟩, []⟩⟩
        102 30 XKB_KEY_Multi_key WL_KEYBOARD_KEY_STATE_RELEASED =
      .ok (⟨0, 5, 1, 6, 2, state_compose, ⟨⟨0, 0, 0, 0⟩, []⟩⟩, []) :=
  ⟨by decide,
   (C15_compose_run_starts_empty ascii_utf8
      ⟨0, 5, 1, 6, 2, state_normal, ⟨⟨XKB_KEY_quotedbl, 0, 0, 0⟩, []⟩⟩ rfl).1 9 102 30⟩

/-- C16, evaluated where it fails. The released Multi_key, quotedbl, NoSymbol
(sym 0) commit the two bytes `C3 BC` of "ü" through the complete-match
branch: the write of 0 leaves the stored keys (quotedbl), the search returns
the entry (quotedbl, u) and its slot 2 is zero. The released Multi_key,
NoSymbol show the quotation mark as pre-edit, though 0 starts no entry. -/
theorem C16_no_symbol_completes_entry :
    run ascii_utf8 (input_method_activate (simple_im_init 1 2) 5 6).1
        [released 9 100 30 XKB_KEY_Multi_key, released 9 101 31 XKB_KEY_quotedbl,
         released 9 102 32 0] =
      .ok (⟨0, 5, 1, 6, 2, state_normal, ⟨⟨XKB_KEY_quotedbl, 0, 0, 0⟩, []⟩⟩,
           [Call.input_method_context_preedit_string 5 [0x22] 1,
            Call.input_method_context_preedit_string 5 [] 0,
            Call.input_method_context_commit_string 5 [0xC3, 0xBC] 2]) ∧
    bsearch ⟨⟨XKB_KEY_quotedbl, 0, 0, 0⟩, []⟩ compose_seqs =
      .ok (some ⟨⟨XKB_KEY_quotedbl, XKB_KEY_u, 0, 0⟩, [0xC3, 0xBC]⟩) ∧
    run ascii_utf8 (input_method_activate (simple_im_init 1 2) 5 6).1
        [released 9 100 30 XKB_KEY_Multi_key, released 9 101 31 0] =
      .ok (⟨0, 5, 1, 6, 2, state_compose, ⟨⟨0, 0, 0, 0⟩, []⟩⟩,
           [Call.input_method_context_preedit_string 5 [0x22] 1]) := by
  decide

/-- C17 as stated fails on positivity: (1) is a non-empty strict initial
segment of (1, 0x80000000), and the comparator returns `-2 ^ 31`. -/
theorem C17_counterexample :
    typed_keys ⟨⟨1, 0, 0, 0⟩, []⟩ <+: typed_keys ⟨⟨1, 0x80000000, 0, 0⟩, []⟩ ∧
    typed_keys ⟨⟨1, 0, 0, 0⟩, []⟩ ≠ [] ∧
    typed_keys ⟨⟨1, 0, 0, 0⟩, []⟩ ≠ typed_keys ⟨⟨1, 0x80000000, 0, 0⟩, []⟩ ∧
    compare_compose_keys ⟨⟨1, 0x80000000, 0, 0⟩, []⟩ ⟨⟨1, 0, 0, 0⟩, []⟩ = .ok (-2147483648) ∧
    is_positive (compare_compose_keys ⟨⟨1, 0x80000000, 0, 0⟩, []⟩ ⟨⟨1, 0, 0, 0⟩, []⟩) = false := by
  decide

/-- C17, amended. For 32-bit sequences `a` and `b`, `a` with a zero slot: the
comparator returns 0 exactly when the keys of `a` before its first zero are
an initial segment of those of `b`; an empty `a` compares equal to every
`b`; when the keys of `b` are a strict initial segment of those of `a` and
the keys of `a` are below `2 ^ 31`, the result is positive; so for `a` a
strict initial segment of `b` with keys below `2 ^ 31`, the comparator is 0
on (a, b) and positive on (b, a). -/
theorem C17_comparator_initial_segment (a b : compose_seq) (ha0 : 0 ∈ a.keys.slots)
    (ha : ∀ x ∈ a.keys.slots, x < 2 ^ 32) (hb : ∀ x ∈ b.keys.slots, x < 2 ^ 32) :
    (compare_compose_keys a b = .ok 0 ↔ typed_keys a <+: typed_keys b) ∧
    (typed_keys a = [] → compare_compose_keys a b = .ok 0) ∧
    ((∀ x ∈ a.keys.slots, x < 2 ^ 31) → typed_keys b <+: typed_keys a →
      typed_keys b ≠ typed_keys a → is_positive (compare_compose_keys a b) = true) ∧
    ((∀ x ∈ b.keys.slots, x < 2 ^ 31) → typed_keys a <+: typed_keys b →
      typed_keys a ≠ typed_keys b →
      compare_compose_keys a b = .ok 0 ∧ is_positive (compare_compose_keys b a) = true) := by
  have hiff : compare_compose_keys a b = .ok 0 ↔ typed_keys a <+: typed_keys b :=
    compare_slots_zero_iff _ _ rfl ha0 ha hb
  refine ⟨hiff, ?_, ?_, ?_⟩
  · intro he
    exact hiff.2 (by rw [he]; exact List.nil_prefix)
  · intro h31 hpre hne
    exact compare_slots_strict _ _ rfl h31 hpre hne
  · intro h31 hpre hne
    exact ⟨hiff.2 hpre, compare_slots_strict _ _ rfl h31 hpre hne⟩

/-- C17 amended, at (quotedbl) against the entry (quotedbl, A). -/
theorem C17_comparator_initial_segment_witness :
    (0 ∈ (⟨⟨XKB_KEY_quotedbl, 0, 0, 0⟩, []⟩ : compose_seq).keys.slots) ∧
    compare_compose_keys ⟨⟨XKB_KEY_quotedbl, 0, 0, 0⟩, []⟩
        ⟨⟨XKB_KEY_quotedbl, XKB_KEY_A, 0, 0⟩, [0xC3, 0x84]⟩ = .ok 0 ∧
    is_positive (compare_compose_keys ⟨⟨XKB_KEY_quotedbl, XKB_KEY_A, 0, 0⟩, [0xC3, 0x84]⟩
        ⟨⟨XKB_KEY_quotedbl, 0, 0, 0⟩, []⟩) = true :=
  ⟨by decide,
   (C17_comparator_initial_segment ⟨⟨XKB_KEY_quotedbl, 0, 0, 0⟩, []⟩
      ⟨⟨XKB_KEY_quotedbl, XKB_KEY_A, 0, 0⟩, [0xC3, 0x84]⟩ (by decide) (by decide)
      (by decide)).2.2.2 (by decide) (by decide) (by decide)⟩

/-- C18 as stated fails when the first sequence ends at the first differing
slot: (quotedbl) and (quotedbl, A) first differ at slot 1, where 0 is below
A, and the comparator returns 0, not a negative value. -/
theorem C18_counterexample :
    (⟨⟨XKB_KEY_quotedbl, 0, 0, 0⟩, []⟩ : compose_seq).keys.slots =
      [XKB_KEY_quotedbl] ++ 0 :: [0, 0] ∧
    (⟨⟨XKB_KEY_quotedbl, XKB_KEY_A, 0, 0⟩, []⟩ : compose_seq).keys.slots =
      [XKB_KEY_quotedbl] ++ XKB_KEY_A :: [0, 0] ∧
    (0 : Nat) < XKB_KEY_A ∧ XKB_KEY_quotedbl < 2 ^ 31 ∧ XKB_KEY_A < 2 ^ 31 ∧
    compare_compose_keys ⟨⟨XKB_KEY_quotedbl, 0, 0, 0⟩, []⟩
        ⟨⟨XKB_KEY_quotedbl, XKB_KEY_A, 0, 0⟩, []⟩ = .ok 0 ∧
    is_negative (compare_compose_keys ⟨⟨XKB_KEY_quotedbl, 0, 0, 0⟩, []⟩
        ⟨⟨XKB_KEY_quotedbl, XKB_KEY_A, 0, 0⟩, []⟩) = false := by
  decide

/-- C18, amended. When two sequences agree on a run `p` of non-zero keys and
then differ, `x` against `y`, the comparator returns 0 if `x` is zero (the
first sequence ends there) and otherwise `key_diff x y`: the value congruent
to `x - y` modulo `2 ^ 32` in the signed 32-bit range. For `x` and `y` below
`2 ^ 31` that value is negative exactly when `x < y` and positive exactly
when `y < x`. -/
theorem C18_comparator_sign (a b : compose_seq) (p : List Nat) (x y : Nat) (ra rb : List Nat)
    (hsa : a.keys.slots = p ++ x :: ra) (hsb : b.keys.slots = p ++ y :: rb)
    (hp : ∀ k ∈ p, k ≠ 0) (hxy : x ≠ y) :
    compare_compose_keys a b = .ok (if x = 0 then 0 else key_diff x y) ∧
    ((key_diff x y - ((x : Int) - (y : Int))) % 4294967296 = 0 ∧
      -2147483648 ≤ key_diff x y ∧ key_diff x y < 2147483648) ∧
    (x < 2 ^ 31 → y < 2 ^ 31 →
      (key_diff x y < 0 ↔ x < y) ∧ (0 < key_diff x y ↔ y < x)) := by
  refine ⟨?_, key_diff_range x y, fun h1 h2 => ⟨key_diff_neg_iff h1 h2, key_diff_pos_iff h1 h2⟩⟩
  unfold compare_compose_keys
  rw [hsa, hsb]
  exact compare_slots_first_difference p x y ra rb hp hxy

/-- C18 amended, at the entries (quotedbl, O) and (quotedbl, a). -/
theorem C18_comparator_sign_witness :
    (⟨⟨XKB_KEY_quotedbl, XKB_KEY_O, 0, 0⟩, []⟩ : compose_seq).keys.slots =
      [XKB_KEY_quotedbl] ++ XKB_KEY_O :: [0, 0] ∧
    (⟨⟨XKB_KEY_quotedbl, XKB_KEY_a, 0, 0⟩, []⟩ : compose_seq).keys.slots =
      [XKB_KEY_quotedbl] ++ XKB_KEY_a :: [0, 0] ∧
    XKB_KEY_O ≠ XKB_KEY_a ∧
    compare_compose_keys ⟨⟨XKB_KEY_quotedbl, XKB_KEY_O, 0, 0⟩, []⟩
        ⟨⟨XKB_KEY_quotedbl, XKB_KEY_a, 0, 0⟩, []⟩ =
      .ok (if XKB_KEY_O = 0 then 0 else key_diff XKB_KEY_O XKB_KEY_a) ∧
    key_diff XKB_KEY_O XKB_KEY_a = -18 :=
  ⟨rfl, rfl, by decide,
   (C18_comparator_sign ⟨⟨XKB_KEY_quotedbl, XKB_KEY_O, 0, 0⟩, []⟩
      ⟨⟨XKB_KEY_quotedbl, XKB_KEY_a, 0, 0⟩, []⟩ [XKB_KEY_quotedbl] XKB_KEY_O XKB_KEY_a
      [0, 0] [0, 0] rfl rfl (by decide) (by decide)).1,
   by decide⟩

end SimpleIm
